import Mathlib

/-!
# Verification of the llmcord conversation core

Shallow embedding of the conversation-context builder, the streaming
response renderer, the hook dispatcher and the MessageNode cache of
`src/llmcord.py`, together with theorems settling the frozen claims
about that code.

Python strings are modelled as `List Char` (a Python `str` is a sequence
of code points; `len`, slicing and concatenation coincide with list
length, `take` and append).  Machine I/O (Discord fetches, HTTP
downloads) is modelled as data carried by the message and attachment
records, and the cooperative event loop is modelled by explicit state
passing.
-/

set_option autoImplicit false

namespace Llmcord

/-- A Python `str`: a sequence of Unicode code points. -/
abbrev PyStr := List Char

/-- `"\n".join(parts)` (Python string join with a separator). -/
def pyJoin (sep : PyStr) : List PyStr → PyStr
  | [] => []
  | [p] => p
  | p :: ps => p ++ sep ++ pyJoin sep ps

/-- `s.startswith(pre)`. -/
def pyStartsWith (s pre : PyStr) : Bool := pre.isPrefixOf s

/-- Python `needle in hay` on strings (contiguous substring test). -/
def pyIn (needle : PyStr) : PyStr → Bool
  | [] => needle.isEmpty
  | c :: rest => needle.isPrefixOf (c :: rest) || pyIn needle rest

/-- A Discord attachment.  `fetchedText` stands for
`requests.get(att.url).text` and `fetchedB64` for the base64 encoding of
`requests.get(att.url).content`: the network fetch is modelled as data
already carried by the record. -/
structure Attachment where
  filename : PyStr
  contentType : Option PyStr
  size : Nat
  fetchedText : PyStr
  fetchedB64 : PyStr
  deriving DecidableEq, Repr

/-- A Discord embed (only the `description` field is read by the code). -/
structure Embed where
  description : Option PyStr
  deriving DecidableEq, Repr

/-- Discord channel types, with the four members of
`ALLOWED_CHANNEL_TYPES` (line 54) distinguished. -/
inductive ChanType where
  | guildText | publicThread | privateThread | dm | other
  deriving DecidableEq, Repr

/-- A Discord message, with the fields `on_message` reads.  `reference`
is the id of the replied-to message (if any), `createdAt` a timestamp in
seconds, and `mentionsBot` models `discord_client.user in msg.mentions`. -/
structure Msg where
  id : Nat
  authorId : Nat
  content : PyStr := []
  embeds : List Embed := []
  attachments : List Attachment := []
  reference : Option Nat := none
  createdAt : Nat := 0
  mentionsBot : Bool := false
  channelId : Nat := 0
  chanType : ChanType := .guildText
  authorIsMember : Bool := false
  authorRoleIds : List Nat := []
  deriving DecidableEq, Repr

/-- One element of a multimodal content list sent to the model. -/
inductive ContentPart where
  | text (t : PyStr)
  | imageUrl (url : PyStr)
  deriving DecidableEq, Repr

/-- The `content` entry of a message dict: either a plain string or a
list of typed parts (`content = text` vs the `image_parts` branch). -/
inductive Content where
  | str (s : PyStr)
  | parts (ps : List ContentPart)
  deriving DecidableEq, Repr

/-- Python truthiness of a `content` value: a nonempty string or a
nonempty list. -/
def Content.truthy : Content → Bool
  | .str s => !s.isEmpty
  | .parts ps => !ps.isEmpty

/-- The dict `{"content": ..., "role": ..., "name": ...}` built for each
message (`name` present only when `LLM_ACCEPTS_NAMES`). -/
structure TurnData where
  content : Content
  role : PyStr
  name : Option PyStr
  deriving DecidableEq, Repr

/-- The `MsgNode` dataclass.  The asyncio `lock` is modelled by the
`locked` flag: `locked = true` means some other task currently holds the
node's guard. -/
structure MsgNodeM where
  data : Option TurnData := none
  tooMuchText : Bool := false
  tooManyImages : Bool := false
  hasBadAttachments : Bool := false
  locked : Bool := false
  deriving DecidableEq, Repr

/-- The `msg_nodes` dict, as an association list keyed by message id (a
Python dict with int keys; insertion order is append order). -/
abbrev NodeMap := List (Nat × MsgNodeM)

/-- Dict lookup `msg_nodes.get(id)`. -/
def nmFind (nm : NodeMap) (i : Nat) : Option MsgNodeM :=
  (nm.find? (fun p => p.1 = i)).map (·.2)

/-- Dict store `msg_nodes[id] = node` (replaces an existing binding,
otherwise appends, as Python dicts preserve insertion order). -/
def nmSet (nm : NodeMap) (i : Nat) (nd : MsgNodeM) : NodeMap :=
  if (nm.find? (fun p => p.1 = i)).isSome then
    nm.map (fun p => if p.1 = i then (i, nd) else p)
  else nm ++ [(i, nd)]

/-- `del msg_nodes[id]`. -/
def nmErase (nm : NodeMap) (i : Nat) : NodeMap :=
  nm.filter (fun p => p.1 ≠ i)

/-- The keys of the dict, in insertion order. -/
def nmKeys (nm : NodeMap) : List Nat := nm.map (·.1)

section Streaming

/-!
## Streaming segment accumulation (lines 491-527)

`response_contents` starts as `[]`; on the first chunk it becomes
`[""]`; each chunk whose text would push the current (last) segment past
`MAX_MESSAGE_LENGTH` first opens a fresh empty segment; the chunk text
is then appended to the last segment.  The state is modelled as the pair
(closed segments, current segment).
-/

/-- `STREAMING_INDICATOR = " ⚪"` (two code points). -/
def STREAMING_INDICATOR : PyStr := " ⚪".toList

/-- `MAX_MESSAGE_LENGTH = 3000 if USE_PLAIN_RESPONSES else (4096 - len(STREAMING_INDICATOR))`. -/
def MAX_MESSAGE_LENGTH (usePlain : Bool) : Nat :=
  if usePlain then 3000 else 4096 - STREAMING_INDICATOR.length

/-- One chunk of the accumulation loop: if `len(last_segment + chunk) >
maxLen` the current segment is closed and a new empty one is opened
(line 513-514); then `response_contents[-1] += curr_content` (line 527). -/
def stepSeg (maxLen : Nat) (s : List PyStr × PyStr) (t : PyStr) : List PyStr × PyStr :=
  if maxLen < (s.2 ++ t).length then (s.1 ++ [s.2], t) else (s.1, s.2 ++ t)

/-- The final `response_contents` after consuming the whole token
stream: `[]` when no chunk arrived, otherwise the fold of `stepSeg`
starting from the `[""]` initialisation of line 496. -/
def runSegs (maxLen : Nat) (toks : List PyStr) : List PyStr :=
  match toks with
  | [] => []
  | _ =>
    let s := toks.foldl (stepSeg maxLen) ([], [])
    s.1 ++ [s.2]

end Streaming

section Hooks

/-!
## Hook dispatch (`plugin_hooks`)

A registered callable is modelled by a function from its arguments to an
outcome; the outcome `raise` models the callable raising an exception
(which `on_message` catches and logs).  Each dispatcher also returns the
number of callables actually invoked, counted from the front of the
registration list.
-/

/-- Outcome of an `on_message_received` hook: `ret true` models the hook
returning the literal `False` (`result is False`), `ret false` any other
return value. -/
inductive OmrOut where
  | raise
  | ret (isFalse : Bool)
  deriving DecidableEq, Repr

/-- An `on_message_received` hook. -/
abbrev OmrHook := Msg → OmrOut

/-- The fan-out loop of lines 201-212: each hook is awaited inside
`try/except`; a hook returning `False` sets `stop_processing` and
**breaks** out of the loop.  Returns (number of hooks invoked,
`stop_processing`). -/
def omrRun (hooks : List OmrHook) (m : Msg) : Nat × Bool :=
  match hooks with
  | [] => (0, false)
  | h :: hs =>
    match h m with
    | .raise => let r := omrRun hs m; (r.1 + 1, r.2)
    | .ret true => (1, true)
    | .ret false => let r := omrRun hs m; (r.1 + 1, r.2)

/-- The dict a `process_attachment` hook may return: field present iff
the corresponding key is in the dict. -/
structure PADict where
  caption : Option PyStr
  imageData : Option PyStr
  deriving DecidableEq, Repr

/-- Outcome of a `process_attachment` hook: `ret none` models a falsy
result (`None` or an empty dict), `ret (some d)` a truthy dict. -/
inductive PAOut where
  | raise
  | ret (r : Option PADict)
  deriving DecidableEq, Repr

/-- A `process_attachment` hook; the `Option Msg` argument is the
`message=` keyword (absent in the history-scan branch). -/
abbrev PAHook := Attachment → Bool → Option Msg → PAOut

/-- `att.content_type` as a string (good attachments always have one). -/
def attCT (att : Attachment) : PyStr := att.contentType.getD []

/-- The image part built from a hook's `image_data`
(`f"data:{att.content_type};base64,{result['image_data']}"`). -/
def hookImagePart (att : Attachment) (idata : PyStr) : ContentPart :=
  .imageUrl ("data:".toList ++ attCT att ++ ";base64,".toList ++ idata)

/-- The default image part from downloading the attachment itself. -/
def defaultImagePart (att : Attachment) : ContentPart :=
  .imageUrl ("data:".toList ++ attCT att ++ ";base64,".toList ++ att.fetchedB64)

/-- The bracketed caption text `f"[Image description: {caption}]"`. -/
def captionText (c : PyStr) : PyStr :=
  "[Image description: ".toList ++ c ++ "]".toList

/-- What a truthy hook result contributes (lines 315-318 / 430-435):
a caption line when `caption` is present and truthy, and an image part
when `image_data` is present and the model accepts images. -/
def claimAdds (att : Attachment) (accepts : Bool) (d : PADict) :
    List PyStr × List ContentPart :=
  ((match d.caption with
    | some c => if c.isEmpty then [] else [captionText c]
    | none => []),
   (match d.imageData with
    | some idata => if accepts then [hookImagePart att idata] else []
    | none => []))

/-- The per-attachment hook loop of the reply-chain and current-message
branches (lines 311-322 and 424-440): try each hook in order; a raising
or falsy hook is skipped; the first truthy result contributes its adds,
sets `processed` and breaks.  Returns (caption lines, image parts,
`processed`, number of hooks invoked). -/
def paRun (hooks : List PAHook) (att : Attachment) (accepts : Bool)
    (msgArg : Option Msg) : List PyStr × List ContentPart × Bool × Nat :=
  match hooks with
  | [] => ([], [], false, 0)
  | h :: hs =>
    match h att accepts msgArg with
    | .raise => let r := paRun hs att accepts msgArg
                (r.1, r.2.1, r.2.2.1, r.2.2.2 + 1)
    | .ret none => let r := paRun hs att accepts msgArg
                   (r.1, r.2.1, r.2.2.1, r.2.2.2 + 1)
    | .ret (some d) => let a := claimAdds att accepts d
                       (a.1, a.2, true, 1)

/-- Per-attachment processing in the reply-chain / current-message
branches: the hook loop, then — **after** the loop — the default base64
embedding when no hook claimed the attachment and the model accepts
images (lines 324-326 / 442-445). -/
def processAttCR (hooks : List PAHook) (accepts : Bool) (msgArg : Option Msg)
    (att : Attachment) : List PyStr × List ContentPart :=
  let r := paRun hooks att accepts msgArg
  if r.2.2.1 then (r.1, r.2.1)
  else (r.1, r.2.1 ++ (if accepts then [defaultImagePart att] else []))

/-- Per-attachment processing in the history-scan branch (lines
367-384), where the default-embedding block sits **inside** the hook
loop, after each hook's `try/except`: every hook iteration that does not
break appends another default image part (and with zero registered hooks
no default embedding happens at all). -/
def paRunPrev (hooks : List PAHook) (att : Attachment) (accepts : Bool) :
    List PyStr × List ContentPart :=
  match hooks with
  | [] => ([], [])
  | h :: hs =>
    match h att accepts none with
    | .raise =>
      let dflt := if accepts then [defaultImagePart att] else []
      let r := paRunPrev hs att accepts
      (r.1, dflt ++ r.2)
    | .ret none =>
      let dflt := if accepts then [defaultImagePart att] else []
      let r := paRunPrev hs att accepts
      (r.1, dflt ++ r.2)
    | .ret (some d) =>
      let a := claimAdds att accepts d
      (a.1, a.2)

/-- Outcome of a `before_llm_call` hook. -/
inductive BlcOut where
  | raise
  | ret (r : Option (List TurnData))

/-- A `before_llm_call` hook. -/
abbrev BlcHook := List TurnData → Msg → BlcOut

/-- The pipeline loop of lines 476-480:
`messages = await hook(messages, new_msg) or messages`, with a raising
hook leaving `messages` unchanged.  Returns (final messages, number of
hooks invoked). -/
def blcRun (hooks : List BlcHook) (ms : List TurnData) (m : Msg) :
    List TurnData × Nat :=
  match hooks with
  | [] => (ms, 0)
  | h :: hs =>
    let ms' := match h ms m with
      | .raise => ms
      | .ret none => ms
      | .ret (some r) => r
    let r := blcRun hs ms' m
    (r.1, r.2 + 1)

/-- Outcome of an `after_llm_response` / `on_bot_ready` hook (the return
value is ignored, only raising matters). -/
inductive FanOut where
  | raise
  | ret
  deriving DecidableEq, Repr

/-- The fan-out loops of lines 152-156 and 563-567: every hook is
awaited inside `try/except` and its result discarded.  Returns the
number of hooks invoked. -/
def fanRun (hooks : List FanOut) : Nat :=
  match hooks with
  | [] => 0
  | _ :: hs => fanRun hs + 1

end Hooks

section Normalizer

/-!
## Content normalisation (lines 303-343, 360-401 and 408-469)

The three nearly identical blocks that turn a Discord message into the
`{"content", "role", "name"}` dict stored in its `MsgNode`.
-/

/-- Configuration constants read by the normaliser. -/
structure NormCfg where
  acceptsImages : Bool
  acceptsNames : Bool
  maxText : Nat
  maxImages : Nat
  botId : Nat
  deriving Repr

/-- `good_attachments[type]`: attachments with a truthy `content_type`
containing `type` as a substring and size at most 10 MB. -/
def goodAtts (ty : PyStr) (atts : List Attachment) : List Attachment :=
  atts.filter (fun a =>
    match a.contentType with
    | some ct => !ct.isEmpty && pyIn ty ct && a.size ≤ 10000000
    | none => false)

/-- `str(n)` for a Discord id. -/
def natStr (n : Nat) : PyStr := (toString n).toList

/-- `"assistant" if msg.author == discord_client.user else "user"`. -/
def roleFor (cfg : NormCfg) (m : Msg) : PyStr :=
  if m.authorId = cfg.botId then "assistant".toList else "user".toList

/-- Text/image assembly shared by the three normalisation blocks,
parameterised by the per-attachment processor (which differs between the
history-scan branch and the other two).  Produces the joined,
**untruncated** text and the image parts:
text parts are the initial text (if truthy), then the caption lines in
attachment order, then truthy embed descriptions, then the contents of
good text attachments; the result text is their newline join. -/
def assembleRaw (perAtt : Attachment → List PyStr × List ContentPart)
    (cfg : NormCfg) (initText : PyStr) (m : Msg) : PyStr × List ContentPart :=
  let goodImage := goodAtts "image".toList m.attachments
  let goodText := goodAtts "text".toList m.attachments
  let attRes := (goodImage.take cfg.maxImages).map perAtt
  let textParts :=
    (if initText.isEmpty then [] else [initText])
    ++ (attRes.map (·.1)).flatten
    ++ m.embeds.filterMap (fun e =>
        match e.description with
        | some d => if d.isEmpty then none else some d
        | none => none)
    ++ (goodText.filter (fun a => a.size ≤ 10000000)).map (·.fetchedText)
  (pyJoin ['\n'] textParts, (attRes.map (·.2)).flatten)

/-- Truncation and content assembly (lines 330-338 and analogues):
truncate the joined text to `MAX_TEXT` (recording `too_much_text`), then
build either a plain string content or a parts list with the text part
first. -/
def truncAssemble (cfg : NormCfg) (raw : PyStr × List ContentPart) :
    Content × Bool :=
  let tooMuch := cfg.maxText < raw.1.length
  let text := if tooMuch then raw.1.take cfg.maxText else raw.1
  let content :=
    if raw.2.isEmpty then Content.str text
    else Content.parts ((if text.isEmpty then [] else [ContentPart.text text]) ++ raw.2)
  (content, tooMuch)

/-- Normalisation of a fetched reply-chain message (lines 302-343):
initial text is `ref_msg.content`, the hook call passes
`message=ref_msg`, role depends on the author, default image embedding
sits after the hook loop. -/
def normalizeRef (hooks : List PAHook) (cfg : NormCfg) (m : Msg) :
    TurnData × Bool :=
  let raw := assembleRaw (processAttCR hooks cfg.acceptsImages (some m)) cfg m.content m
  let cb := truncAssemble cfg raw
  ({ content := cb.1, role := roleFor cfg m,
     name := if cfg.acceptsNames then some (natStr m.authorId) else none }, cb.2)

/-- Normalisation of a history-scan message (lines 360-401): the hook
call passes no `message=` argument and the default image embedding sits
inside the hook loop (`paRunPrev`). -/
def normalizePrev (hooks : List PAHook) (cfg : NormCfg) (m : Msg) :
    TurnData × Bool :=
  let raw := assembleRaw (fun att => paRunPrev hooks att cfg.acceptsImages) cfg m.content m
  let cb := truncAssemble cfg raw
  ({ content := cb.1, role := roleFor cfg m,
     name := if cfg.acceptsNames then some (natStr m.authorId) else none }, cb.2)

/-- Normalisation of the current message (lines 408-469): initial text
is `effective_content` (the `!new `-stripped text), role is always
`"user"`, and the extra `too_many_images` / `has_bad_attachments` flags
are computed. -/
def normalizeCurr (hooks : List PAHook) (cfg : NormCfg) (effContent : PyStr)
    (m : Msg) : TurnData × Bool × Bool × Bool :=
  let raw := assembleRaw (processAttCR hooks cfg.acceptsImages (some m)) cfg effContent m
  let cb := truncAssemble cfg raw
  let goodImage := goodAtts "image".toList m.attachments
  let goodText := goodAtts "text".toList m.attachments
  let tooMany := cfg.maxImages < goodImage.length
  let bad := goodImage.length + goodText.length < m.attachments.length
  ({ content := cb.1, role := "user".toList,
     name := if cfg.acceptsNames then some (natStr m.authorId) else none },
   cb.2, tooMany, bad)

end Normalizer

section ContextWalk

/-!
## Context chain building (lines 292-474)

The reply-chain walk, the channel-history fallback scan, the
current-message resolution and the final truncation of the outgoing
message list.
-/

/-- `msg_nodes.setdefault(ref_msg.id, MsgNode())` followed by the guarded
lazy normalisation of lines 301-343: an existing populated node is
reused; otherwise the message is normalised and stored (recording
`too_much_text`).  Returns the node's `data` and the updated cache. -/
def resolveRefNode (hooks : List PAHook) (cfg : NormCfg) (nodes : NodeMap)
    (m : Msg) : TurnData × NodeMap :=
  match nmFind nodes m.id with
  | some nd =>
    match nd.data with
    | some d => (d, nodes)
    | none =>
      let r := normalizeRef hooks cfg m
      (r.1, nmSet nodes m.id
        { nd with data := some r.1, tooMuchText := nd.tooMuchText || r.2 })
  | none =>
    let r := normalizeRef hooks cfg m
    (r.1, nmSet nodes m.id { data := some r.1, tooMuchText := r.2 })

/-- Same, for the history-scan branch (lines 358-401), which uses the
history-branch normaliser. -/
def resolvePrevNode (hooks : List PAHook) (cfg : NormCfg) (nodes : NodeMap)
    (m : Msg) : TurnData × NodeMap :=
  match nmFind nodes m.id with
  | some nd =>
    match nd.data with
    | some d => (d, nodes)
    | none =>
      let r := normalizePrev hooks cfg m
      (r.1, nmSet nodes m.id
        { nd with data := some r.1, tooMuchText := nd.tooMuchText || r.2 })
  | none =>
    let r := normalizePrev hooks cfg m
    (r.1, nmSet nodes m.id { data := some r.1, tooMuchText := r.2 })

/-- The reply-chain `while current_msg.reference` loop of lines 296-348,
accumulating turns newest-first.  `env` models message fetching
(`cached_message or fetch_message`); a failed fetch raises and the
`except` clause breaks the loop.  The loop has **no hop bound** in the
code; `fuel` is only the model's termination device (theorems supply
`fuel` at least the chain length).  Returns (turns newest-first, cache,
number of messages fetched). -/
def replyWalkGo (hooks : List PAHook) (cfg : NormCfg) (env : Nat → Option Msg) :
    Nat → NodeMap → Msg → List TurnData × NodeMap × Nat
  | 0, nodes, _ => ([], nodes, 0)
  | fuel + 1, nodes, cur =>
    match cur.reference with
    | none => ([], nodes, 0)
    | some rid =>
      match env rid with
      | none => ([], nodes, 0)
      | some refMsg =>
        let r := resolveRefNode hooks cfg nodes refMsg
        let rest := replyWalkGo hooks cfg env fuel r.2 refMsg
        ((if r.1.content.truthy then [r.1] else []) ++ rest.1,
         rest.2.1, rest.2.2 + 1)

/-- The reply-chain walk with the final `conversation_history.reverse()`
of line 349 (turns oldest-first). -/
def replyWalk (hooks : List PAHook) (cfg : NormCfg) (env : Nat → Option Msg)
    (fuel : Nat) (nodes : NodeMap) (start : Msg) :
    List TurnData × NodeMap × Nat :=
  let g := replyWalkGo hooks cfg env fuel nodes start
  (g.1.reverse, g.2)

/-- The `continue` filter of line 353: a message by the bot with no text
and no embeds is skipped. -/
def botEmptySkip (cfg : NormCfg) (p : Msg) : Bool :=
  (p.authorId == cfg.botId) && p.content.isEmpty && p.embeds.isEmpty

/-- The recency window of lines 355-357:
`(new_msg.created_at - prev_msg.created_at).total_seconds() <= 300`. -/
def withinWindow (newMsg p : Msg) : Bool :=
  newMsg.createdAt - p.createdAt ≤ 300

/-- The history-scan loop body of lines 352-403 over the messages
yielded by `channel.history` (newest first), accumulating turns
newest-first: skip the bot's empty messages, break at the first message
outside the recency window, otherwise resolve and keep non-empty turns. -/
def histLoop (hooks : List PAHook) (cfg : NormCfg) (newMsg : Msg) :
    List Msg → NodeMap → List TurnData × NodeMap
  | [], nodes => ([], nodes)
  | p :: ps, nodes =>
    if botEmptySkip cfg p then histLoop hooks cfg newMsg ps nodes
    else if !withinWindow newMsg p then ([], nodes)
    else
      let r := resolvePrevNode hooks cfg nodes p
      let rest := histLoop hooks cfg newMsg ps r.2
      ((if r.1.content.truthy then [r.1] else []) ++ rest.1, rest.2)

/-- The full history fallback (lines 351-404): `channel.history(before=
new_msg, limit=MAX_MESSAGES)` yields at most `maxMsgs` of the channel's
preceding messages (newest first), the loop runs over them, and the
result is reversed to oldest-first. -/
def historyWalk (hooks : List PAHook) (cfg : NormCfg) (newMsg : Msg)
    (chanHist : List Msg) (maxMsgs : Nat) (nodes : NodeMap) :
    List TurnData × NodeMap :=
  let g := histLoop hooks cfg newMsg (chanHist.take maxMsgs) nodes
  (g.1.reverse, g.2)

/-- Straight-line fold over an already selected list of history
messages: resolve each and keep non-empty turns (no skip, no break). -/
def histFold (hooks : List PAHook) (cfg : NormCfg) :
    List Msg → NodeMap → List TurnData × NodeMap
  | [], nodes => ([], nodes)
  | p :: ps, nodes =>
    let r := resolvePrevNode hooks cfg nodes p
    let rest := histFold hooks cfg ps r.2
    ((if r.1.content.truthy then [r.1] else []) ++ rest.1, rest.2)

/-- Closed-form description of the history scan: the messages actually
processed are the longest prefix within the recency window of the
non-`botEmptySkip` messages among the first `maxMsgs` fetched. -/
def charHistoryWalk (hooks : List PAHook) (cfg : NormCfg) (newMsg : Msg)
    (chanHist : List Msg) (maxMsgs : Nat) (nodes : NodeMap) :
    List TurnData × NodeMap :=
  let visited := ((chanHist.take maxMsgs).filter
      (fun p => !botEmptySkip cfg p)).takeWhile (withinWindow newMsg)
  let g := histFold hooks cfg visited nodes
  (g.1.reverse, g.2)

/-- Modelled from the spec: §4.2 step 2 describes the fallback scan as
"scanning immediately preceding messages in the same channel by recency,
stopping at the first message from a different author, or after a
configurable recency window (e.g., discard anything older than 5
minutes), or at `max_turns`" — i.e. the visited messages are the longest
prefix of same-author, within-window messages, capped at `max_turns`,
each normalised, empties dropped, result oldest-first. -/
def specHistoryScan (hooks : List PAHook) (cfg : NormCfg) (newMsg : Msg)
    (chanHist : List Msg) (maxTurns : Nat) : List TurnData :=
  let visited := (chanHist.take maxTurns).takeWhile
      (fun p => (p.authorId == newMsg.authorId) && withinWindow newMsg p)
  (((visited.map (fun p => (normalizePrev hooks cfg p).1)).filter
      (fun t => t.content.truthy)).reverse)

/-- Resolution of the current message's node (lines 406-469): lazy
normalisation with `effective_content`, also recording the
`too_many_images` / `has_bad_attachments` flags. -/
def resolveCurrNode (hooks : List PAHook) (cfg : NormCfg) (nodes : NodeMap)
    (effContent : PyStr) (m : Msg) : TurnData × NodeMap :=
  match nmFind nodes m.id with
  | some nd =>
    match nd.data with
    | some d => (d, nodes)
    | none =>
      let r := normalizeCurr hooks cfg effContent m
      (r.1, nmSet nodes m.id
        { nd with
            data := some r.1
            tooMuchText := nd.tooMuchText || r.2.1
            tooManyImages := r.2.2.1
            hasBadAttachments := r.2.2.2 })
  | none =>
    let r := normalizeCurr hooks cfg effContent m
    (r.1, nmSet nodes m.id
      { data := some r.1
        tooMuchText := r.2.1
        tooManyImages := r.2.2.1
        hasBadAttachments := r.2.2.2 })

/-- Line 471-472: the current turn is appended to the history when its
content is truthy. -/
def appendCurrent (hist : List TurnData) (cur : TurnData) : List TurnData :=
  if cur.content.truthy then hist ++ [cur] else hist

/-- Line 474:
`messages = ([get_system_prompt()] + conversation_history)[:MAX_MESSAGES + 1]`. -/
def buildMessages (sysTurn : TurnData) (hist : List TurnData) (maxMsgs : Nat) :
    List TurnData :=
  (sysTurn :: hist).take (maxMsgs + 1)

/-- The whole context build of lines 292-474 for a message, from chain
walk (or history fallback) through current-message resolution to the
truncated message list handed to `before_llm_call`. -/
def contextMessages (hooks : List PAHook) (cfg : NormCfg) (sysTurn : TurnData)
    (env : Nat → Option Msg) (chanHist : List Msg) (fuel maxMsgs : Nat)
    (ignoreHist : Bool) (effContent : PyStr) (nodes : NodeMap) (m : Msg) :
    List TurnData × NodeMap :=
  let hw : List TurnData × NodeMap :=
    if !ignoreHist && m.reference.isSome then
      let w := replyWalk hooks cfg env fuel nodes m
      (w.1, w.2.1)
    else if !ignoreHist then
      historyWalk hooks cfg m chanHist maxMsgs nodes
    else ([], nodes)
  let c := resolveCurrNode hooks cfg hw.2 effContent m
  (buildMessages sysTurn (appendCurrent hw.1 c.1) maxMsgs, c.2)

end ContextWalk

section Eviction

/-!
## Cache eviction (lines 577-580)

```
if (num_nodes := len(msg_nodes)) > MAX_MESSAGE_NODES:
    for msg_id in sorted(msg_nodes.keys())[:num_nodes - MAX_MESSAGE_NODES]:
        async with msg_nodes.setdefault(msg_id, MsgNode()).lock:
            del msg_nodes[msg_id]
```

The victim list is computed once, up front.  Deleting a victim requires
acquiring its guard: `async with` suspends the sweep until the holder
releases.  `sweepRun` runs the sweep until it either finishes or
suspends on a held guard, returning the cache together with the victims
still pending (`[]` when the sweep completed; a nonempty pending list
means the sweep is parked on its head's guard and resumes — with the
same list — once that guard is released). -/

/-- The victim ids: the `num_nodes - MAX_MESSAGE_NODES` smallest keys,
when the cache is over capacity. -/
def evictVictims (maxNodes : Nat) (nm : NodeMap) : List Nat :=
  if maxNodes < nm.length then
    ((nmKeys nm).mergeSort (· ≤ ·)).take (nm.length - maxNodes)
  else []

/-- Run the eviction sweep over the pending victim list until it
finishes or blocks on a held guard.  A victim id not in the cache is
re-created empty by `setdefault`, locked and deleted — a net no-op. -/
def sweepRun : NodeMap → List Nat → NodeMap × List Nat
  | nm, [] => (nm, [])
  | nm, v :: vs =>
    match nmFind nm v with
    | some nd => if nd.locked then (nm, v :: vs) else sweepRun (nmErase nm v) vs
    | none => sweepRun nm vs

/-- Release the guard of node `i` (the holding task finishing). -/
def nmUnlock (nm : NodeMap) (i : Nat) : NodeMap :=
  nm.map (fun p => if p.1 = i then (p.1, { p.2 with locked := false }) else p)

end Eviction

section Renderer

/-!
## Streaming response renderer (lines 484-575)

The renderer consumes the token stream, sends a placeholder outbound
message and registers a guarded `MsgNode` for it at the first chunk and
at every segment split, and after the stream ends — normally or by a
raised exception — joins all segments, stores the joined text as every
outbound node's `data` (role `assistant`) and releases every guard.
The edit-throttling of lines 529-549 only rewrites already-sent
messages and is not modelled (it touches no node and no segment).
-/

/-- Mutable state of the streaming loop. -/
structure StreamSt where
  /-- Closed segments of `response_contents` (all but the last). -/
  closed : List PyStr
  /-- The segment currently accumulating; `none` while
  `response_contents` is still `[]`. -/
  cur : Option PyStr
  /-- The `MsgNode`s registered for the outbound messages, in creation
  order, guards held. -/
  outNodes : List MsgNodeM
  /-- Outbound messages sent so far. -/
  sent : Nat
  deriving DecidableEq, Repr

/-- A freshly registered outbound node with its guard held
(`msg_nodes[response_msg.id] = MsgNode()` then `lock.acquire()`). -/
def freshHeldNode : MsgNodeM := { locked := true }

/-- One chunk of the streaming loop (lines 491-527): initialise
`response_contents` and send the first placeholder on the first chunk;
split off a new segment (and send a new placeholder) when the chunk
would push the current segment past `maxLen`; append the chunk text to
the current segment. -/
def streamChunk (maxLen : Nat) (st : StreamSt) (t : PyStr) : StreamSt :=
  match st.cur with
  | none =>
    let st' : StreamSt :=
      { closed := [], cur := some []
        outNodes := st.outNodes ++ [freshHeldNode], sent := st.sent + 1 }
    if maxLen < t.length then
      { closed := [[]], cur := some t
        outNodes := st'.outNodes ++ [freshHeldNode], sent := st'.sent + 1 }
    else { st' with cur := some t }
  | some c =>
    if maxLen < (c ++ t).length then
      { closed := st.closed ++ [c], cur := some t
        outNodes := st.outNodes ++ [freshHeldNode], sent := st.sent + 1 }
    else { st with cur := some (c ++ t) }

/-- The segments (`response_contents`) recorded in a streaming state. -/
def StreamSt.segments (st : StreamSt) : List PyStr :=
  match st.cur with
  | none => []
  | some c => st.closed ++ [c]

/-- Result of a full renderer run. -/
structure RenderRes where
  segments : List PyStr
  outNodes : List MsgNodeM
  /-- User-visible failure notices sent (line 559). -/
  notices : Nat
  /-- Outbound messages sent to the transport. -/
  sent : Nat
  deriving DecidableEq, Repr

/-- The assistant `data` dict of lines 569-571. -/
def assistantData (acceptsNames : Bool) (botId : Nat) (full : PyStr) : TurnData :=
  { content := .str full, role := "assistant".toList
    name := if acceptsNames then some (natStr botId) else none }

/-- The streaming loop over the chunks actually delivered before the
stream ended (or raised). -/
def streamPhase (maxLen : Nat) (consumed : List PyStr) : StreamSt :=
  consumed.foldl (streamChunk maxLen) ⟨[], none, [], 0⟩

/-- The plain-response fallback of lines 551-556: when plain responses
are configured and no message was sent (and the `try` body was not
aborted by an exception), send each segment as its own message with a
freshly registered guarded node. -/
def plainFallback (usePlain errored : Bool) (st : StreamSt) : StreamSt :=
  if usePlain && st.outNodes.isEmpty && !errored then
    { st with
        outNodes := st.outNodes ++ st.segments.map (fun _ => freshHeldNode)
        sent := st.sent + st.segments.length }
  else st

/-- Lines 557-575 after the `try/except`: the failure notice on error,
`full_response = "".join(response_contents)`, and the write-back/release
loop that stores the assistant turn into every outbound node and
releases its guard. -/
def finalizePhase (acceptsNames : Bool) (botId : Nat) (errored : Bool)
    (st : StreamSt) : RenderRes :=
  { segments := st.segments
    outNodes := st.outNodes.map (fun _ =>
      { data := some (assistantData acceptsNames botId (pyJoin [] st.segments))
        locked := false })
    notices := if errored then 1 else 0
    sent := st.sent }

/-- The full renderer run of lines 484-575.  `toks` is the token stream
(`delta.content or ""` per chunk); `errAt = some k` models the stream
raising after `k` chunks were consumed. -/
def renderRun (maxLen : Nat) (usePlain acceptsNames : Bool) (botId : Nat)
    (toks : List PyStr) (errAt : Option Nat) : RenderRes :=
  let consumed := match errAt with
    | none => toks
    | some k => toks.take k
  finalizePhase acceptsNames botId errAt.isSome
    (plainFallback usePlain errAt.isSome (streamPhase maxLen consumed))

end Renderer

section TopLevel

/-!
## The `on_message` control flow (lines 191-580)

String helpers model the Python operations used by trigger detection and
command parsing; the event handler itself is a case chain whose exit
point is recorded as a `Phase`.
-/

/-- `s.lower()` (ASCII model of Python case folding). -/
def pyLower (s : PyStr) : PyStr := s.map Char.toLower

/-- `s.strip()`. -/
def pyStrip (s : PyStr) : PyStr :=
  ((s.dropWhile Char.isWhitespace).reverse.dropWhile Char.isWhitespace).reverse

/-- `s.split()` — split on runs of whitespace, dropping empty pieces. -/
def pySplitWs (s : PyStr) : List PyStr :=
  match h : s.dropWhile Char.isWhitespace with
  | [] => []
  | c :: rest =>
    (c :: rest.takeWhile (fun d => !d.isWhitespace))
      :: pySplitWs (rest.dropWhile (fun d => !d.isWhitespace))
termination_by s.length
decreasing_by
  have h1 : (s.dropWhile Char.isWhitespace).length ≤ s.length :=
    (List.dropWhile_sublist _).length_le
  have h2 : (rest.dropWhile (fun d => !d.isWhitespace)).length ≤ rest.length :=
    (List.dropWhile_sublist _).length_le
  rw [h] at h1
  simp only [List.length_cons] at h1
  omega

/-- A regex word character (`\w`): alphanumeric or underscore (ASCII
model). -/
def isWordChar (c : Char) : Bool := c.isAlphanum || c == '_'

/-- Does `w` occur in `s` starting at its head, with `\b` boundaries on
both sides (`prev` is the character just before the match site)? -/
def wordMatchHere (w : PyStr) (prev : Option Char) (s : PyStr) : Bool :=
  w.isPrefixOf s
  && (match prev with | some c => !isWordChar c | none => true)
  && (match s.drop w.length with | c :: _ => !isWordChar c | [] => true)

/-- Scan of all match sites for `wordMatchHere`. -/
def wordSearchGo (w : PyStr) : Option Char → PyStr → Bool
  | prev, [] => wordMatchHere w prev []
  | prev, c :: rest =>
    wordMatchHere w prev (c :: rest) || wordSearchGo w (some c) rest

/-- `re.search(rf'\b{w}\b', s, re.IGNORECASE) is not None`, for a
pattern `w` made of word characters (both trigger patterns — the bot's
name and `mom` — are): case-insensitive whole-word search. -/
def reWordSearch (w s : PyStr) : Bool :=
  wordSearchGo (pyLower w) none (pyLower s)

/-- `int(s)` for an optionally signed decimal string; other Python
`int()` inputs do not arise from the chat protocol modelled here. -/
def parseDigits (ds : PyStr) : Option Nat :=
  match ds with
  | [] => none
  | _ =>
    if ds.all Char.isDigit then
      some (ds.foldl (fun n c => n * 10 + (c.toNat - '0'.toNat)) 0)
    else none

/-- `int(s)` (see `parseDigits`); `ValueError` is `none`. -/
def pyParseInt (s : PyStr) : Option Int :=
  match pyStrip s with
  | '-' :: ds => (parseDigits ds).map (fun n => -(n : Int))
  | '+' :: ds => (parseDigits ds).map (fun n => (n : Int))
  | ds => (parseDigits ds).map (fun n => (n : Int))

/-- `OTHER_BOT_IDS` (line 22). -/
def OTHER_BOT_IDS : List PyStr :=
  ["1385978035861459047".toList, "1294381286294818816".toList]

/-- `SPEAK_EVERY_TURNS` (line 70). -/
def SPEAK_EVERY_TURNS : Nat := 50

/-- `ALLOWED_CHANNEL_TYPES` membership. -/
def chanTypeAllowed : ChanType → Bool
  | .other => false
  | _ => true

/-- The configuration constants of lines 52-66 plus the bot identity. -/
structure BotCfg where
  botId : Nat
  botName : PyStr := []
  acceptsImages : Bool := false
  acceptsNames : Bool := false
  maxText : Nat := 2000
  maxImages : Nat := 2
  maxMessages : Nat := 10
  allowedChannelIds : List PyStr := []
  allowedRoleIds : List Nat := []
  usePlain : Bool := false
  maxMessageNodes : Nat := 100
  deriving Repr

/-- The normaliser's view of the configuration. -/
def BotCfg.norm (cfg : BotCfg) : NormCfg :=
  { acceptsImages := cfg.acceptsImages, acceptsNames := cfg.acceptsNames
    maxText := cfg.maxText, maxImages := cfg.maxImages, botId := cfg.botId }

/-- Outcome of a custom command callable. -/
inductive CmdOut where
  | raise
  | ok
  deriving DecidableEq, Repr

/-- A custom command callable (message, string user id). -/
abbrev CmdHook := Msg → PyStr → CmdOut

/-- The `converse_state` global (line 71). -/
structure ConverseSt where
  active : Bool := false
  channelId : Option Nat := none
  deriving DecidableEq, Repr

/-- The point at which `on_message` returned. -/
inductive Phase where
  /-- line 195-196: the bot's own message. -/
  | selfAuthor
  /-- line 211-212: an `on_message_received` hook returned `False`. -/
  | hookStopped
  /-- line 214-215: content starts with `//`. -/
  | slashComment
  /-- line 218: `content[1:].split()[0]` raised `IndexError` (bare `!`). -/
  | cmdIndexError
  /-- lines 221-228: a custom command ran (`raised` = it threw and the
  apology was sent). -/
  | cmdCustom (name : PyStr) (raised : Bool)
  /-- lines 230-239: the `!plugins` builtin. -/
  | cmdPlugins
  /-- lines 240-254: the `!converse` builtin (`started` = a bot
  conversation was launched). -/
  | cmdConverse (started : Bool)
  /-- line 256: unknown `!` command, silently dropped. -/
  | cmdUnknown
  /-- lines 274-275: no trigger matched. -/
  | noTrigger
  /-- lines 277-278: channel not in `ALLOWED_CHANNEL_IDS`. -/
  | channelBlocked
  /-- lines 279-281: author's roles not allowed. -/
  | roleBlocked
  /-- lines 282-283: channel type not allowed. -/
  | chanTypeBlocked
  /-- the full pipeline ran (context build, model call, render, sweep). -/
  | processed
  deriving DecidableEq, Repr

/-- Externally observable effects of one `on_message` invocation. -/
structure Effects where
  /-- Messages sent to the channel by `on_message` itself. -/
  sends : Nat := 0
  /-- The custom command that was dispatched, if any. -/
  commandInvoked : Option PyStr := none
  /-- Whether a model completion call was made. -/
  modelCalled : Bool := false
  deriving DecidableEq, Repr

/-- The trigger disjunction of lines 258-274. -/
def triggerHit (cfg : BotCfg) (env : Nat → Option Msg) (conv : ConverseSt)
    (msgCount : Nat) (m : Msg) : Bool :=
  let botMentioned := m.mentionsBot
  let nameTrig := reWordSearch cfg.botName m.content
  let momTrig := reWordSearch "mom".toList m.content
  let isReplyToBot := match m.reference with
    | some rid => match env rid with
      | some rm => rm.authorId == cfg.botId
      | none => false
    | none => false
  let isNew := pyStartsWith m.content "!new".toList
  let isFromOtherBot := OTHER_BOT_IDS.contains (natStr m.authorId)
    && (m.authorId != cfg.botId) && conv.active
    && (conv.channelId == some m.channelId)
  let randomResponse := (msgCount + 1) % SPEAK_EVERY_TURNS == 0
  botMentioned || nameTrig || momTrig || isReplyToBot || isNew
    || isFromOtherBot || randomResponse

/-- The command branch of lines 217-256 (entered when the content starts
with `!`). -/
def commandBranch (commands : List (PyStr × CmdHook)) (m : Msg) :
    Phase × Effects :=
  match pySplitWs (m.content.drop 1) with
  | [] => (.cmdIndexError, {})
  | w :: _ =>
    let cmd := pyLower w
    match (commands.find? (fun p => p.1 = cmd)).map (·.2) with
    | some f =>
      match f m (natStr m.authorId) with
      | .ok => (.cmdCustom cmd false, { commandInvoked := some cmd })
      | .raise => (.cmdCustom cmd true, { commandInvoked := some cmd, sends := 1 })
    | none =>
      if cmd = "plugins".toList then (.cmdPlugins, { sends := 1 })
      else if cmd = "converse".toList then
        match (pySplitWs m.content).drop 1 with
        | [a] =>
          match pyParseInt a with
          | some n =>
            if 1 ≤ n ∧ n ≤ 10 then
              (.cmdConverse true, { sends := 1, modelCalled := true })
            else (.cmdConverse false, { sends := 1 })
          | none => (.cmdConverse false, { sends := 1 })
        | _ => (.cmdConverse false, { sends := 1 })
      else (.cmdUnknown, {})

/-- Registration of the renderer's outbound nodes into the global cache
under the transport-assigned message ids. -/
def integrateOut (nodes : NodeMap) (outIds : List Nat)
    (outNodes : List MsgNodeM) : NodeMap :=
  (outIds.zip outNodes).foldl (fun nm p => nmSet nm p.1 p.2) nodes

/-- The conversation pipeline of lines 285-580 (reached once all guards
passed): context build, `before_llm_call`, model call + render,
`after_llm_response`, outbound-node registration and the eviction
sweep.  `toks`/`errAt` model the token stream, `outIds` the ids Discord
assigns to the outbound messages. -/
def conversePipeline (cfg : BotCfg) (paHooks : List PAHook)
    (blcHooks : List BlcHook) (afrHooks : List FanOut) (sysTurn : TurnData)
    (env : Nat → Option Msg) (chanHist : List Msg) (fuel : Nat)
    (toks : List PyStr) (errAt : Option Nat) (outIds : List Nat)
    (nodes : NodeMap) (m : Msg) : NodeMap × Effects :=
  let isNew := pyStartsWith m.content "!new".toList
  let effContent :=
    if isNew then
      (if 5 < m.content.length then pyStrip (m.content.drop 5) else [])
    else m.content
  let ctx := contextMessages paHooks cfg.norm sysTurn env chanHist fuel
    cfg.maxMessages isNew effContent nodes m
  let msgs := blcRun blcHooks ctx.1 m
  let r := renderRun (MAX_MESSAGE_LENGTH cfg.usePlain) cfg.usePlain
    cfg.acceptsNames cfg.botId toks errAt
  let _ := fanRun afrHooks
  let _ := msgs
  let nm := integrateOut ctx.2 outIds r.outNodes
  let sw := sweepRun nm (evictVictims cfg.maxMessageNodes nm)
  (sw.1, { sends := r.sent + r.notices, modelCalled := true })

/-- The `on_message` handler (lines 191-580) as a case chain recording
its exit point, the cache after the call and the observable effects. -/
def onMessageModel (cfg : BotCfg) (omrHooks : List OmrHook)
    (paHooks : List PAHook) (blcHooks : List BlcHook)
    (afrHooks : List FanOut) (commands : List (PyStr × CmdHook))
    (sysTurn : TurnData) (env : Nat → Option Msg) (chanHist : List Msg)
    (fuel : Nat) (toks : List PyStr) (errAt : Option Nat)
    (outIds : List Nat) (msgCount : Nat) (conv : ConverseSt)
    (nodes : NodeMap) (m : Msg) : Phase × NodeMap × Effects :=
  if m.authorId == cfg.botId then (.selfAuthor, nodes, {})
  else if (omrRun omrHooks m).2 then (.hookStopped, nodes, {})
  else if pyStartsWith m.content "//".toList then (.slashComment, nodes, {})
  else if pyStartsWith m.content "!".toList then
    let c := commandBranch commands m
    (c.1, nodes, c.2)
  else if !triggerHit cfg env conv msgCount m then (.noTrigger, nodes, {})
  else if !cfg.allowedChannelIds.isEmpty
      && !cfg.allowedChannelIds.contains (natStr m.channelId) then
    (.channelBlocked, nodes, {})
  else if !cfg.allowedRoleIds.isEmpty && m.authorIsMember
      && !(m.authorRoleIds.any (fun r => cfg.allowedRoleIds.contains r)) then
    (.roleBlocked, nodes, {})
  else if !chanTypeAllowed m.chanType then (.chanTypeBlocked, nodes, {})
  else
    let p := conversePipeline cfg paHooks blcHooks afrHooks sysTurn env
      chanHist fuel toks errAt outIds nodes m
    (.processed, p.1, p.2)

end TopLevel

section ClaimHelpers

/-!
## Helper notions and lemmas shared by the claim theorems
-/

/-- The text carried by a `content` value: the string itself, or the
leading text part of a parts list (empty if there is none). -/
def contentText : Content → PyStr
  | .str s => s
  | .parts (.text s :: _) => s
  | .parts _ => []

/-- The text of a turn. -/
def turnText (t : TurnData) : PyStr := contentText t.content

/-- Is a content part an inline image? -/
def isImagePart : ContentPart → Bool
  | .imageUrl _ => true
  | .text _ => false

theorem claimAdds_image (att : Attachment) (acc : Bool) (d : PADict) :
    ((claimAdds att acc d).2).all isImagePart := by
  rcases d with ⟨cap, idata⟩
  rcases idata with _ | idata <;> rcases acc <;>
    simp [claimAdds, isImagePart, hookImagePart]

theorem paRun_image (hooks : List PAHook) (att : Attachment) (acc : Bool)
    (mo : Option Msg) : ((paRun hooks att acc mo).2.1).all isImagePart := by
  induction hooks with
  | nil => simp [paRun]
  | cons h hs ih =>
    unfold paRun
    cases h att acc mo with
    | raise => simpa using ih
    | ret r =>
      cases r with
      | none => simpa using ih
      | some d => simpa using claimAdds_image att acc d

theorem processAttCR_image (hooks : List PAHook) (acc : Bool) (mo : Option Msg)
    (att : Attachment) : ((processAttCR hooks acc mo att).2).all isImagePart := by
  have hall := paRun_image hooks att acc mo
  simp only [processAttCR]
  split
  · exact hall
  · rw [List.all_append]
    cases acc <;> simp [hall, isImagePart, defaultImagePart]

theorem assembleRaw_image (hooks : List PAHook) (acc : Bool) (mo : Option Msg)
    (cfg : NormCfg) (initText : PyStr) (m : Msg) :
    ((assembleRaw (processAttCR hooks acc mo) cfg initText m).2).all isImagePart := by
  show ((((goodAtts "image".toList m.attachments).take cfg.maxImages).map
      (processAttCR hooks acc mo)).map (·.2)).flatten.all isImagePart = true
  rw [List.all_eq_true]
  intro p hp
  rw [List.mem_flatten] at hp
  obtain ⟨l, hl, hp⟩ := hp
  rw [List.mem_map] at hl
  obtain ⟨r, hr, rfl⟩ := hl
  rw [List.mem_map] at hr
  obtain ⟨a, _, rfl⟩ := hr
  have hi := processAttCR_image hooks acc mo a
  rw [List.all_eq_true] at hi
  exact hi p hp

theorem truncAssemble_over (cfg : NormCfg) (raw : PyStr × List ContentPart)
    (himg : raw.2.all isImagePart) (h : cfg.maxText < raw.1.length) :
    (contentText (truncAssemble cfg raw).1).length = cfg.maxText ∧
    (truncAssemble cfg raw).2 = true := by
  obtain ⟨t1, l2⟩ := raw
  simp only at himg h
  have hd : decide (cfg.maxText < t1.length) = true := decide_eq_true h
  have htake : (t1.take cfg.maxText).length = cfg.maxText := by
    rw [List.length_take]; omega
  have hpair : truncAssemble cfg (t1, l2) =
      (if l2.isEmpty then Content.str (t1.take cfg.maxText)
       else Content.parts ((if (t1.take cfg.maxText).isEmpty then []
         else [ContentPart.text (t1.take cfg.maxText)]) ++ l2), true) := by
    simp [truncAssemble, hd, h]
  rw [hpair]
  rcases l2 with _ | ⟨p, ps⟩
  · exact ⟨by simpa [contentText] using htake, rfl⟩
  · refine ⟨?_, rfl⟩
    simp only [List.isEmpty_cons, Bool.false_eq_true, if_false]
    rcases he : (t1.take cfg.maxText).isEmpty with _ | _
    · simp only [Bool.false_eq_true, if_false, List.singleton_append]
      simpa [contentText] using htake
    · have h0 : t1.take cfg.maxText = [] := List.isEmpty_iff.mp he
      have hmax : cfg.maxText = 0 := by rw [h0] at htake; simpa using htake.symm
      rcases p with t | u
      · exact absurd himg (by simp [isImagePart])
      · simp [contentText, hmax]

end ClaimHelpers

section Claims

/-- C8: for every message whose assembled text is longer than `MAX_TEXT`
characters, the normalised turn's text has length exactly `MAX_TEXT` and
the `too_much_text` flag computed for its `MsgNode` is set. -/
theorem claim_C8 (hooks : List PAHook) (cfg : NormCfg) (eff : PyStr) (m : Msg)
    (h : cfg.maxText <
      (assembleRaw (processAttCR hooks cfg.acceptsImages (some m)) cfg eff m).1.length) :
    (turnText (normalizeCurr hooks cfg eff m).1).length = cfg.maxText ∧
    (normalizeCurr hooks cfg eff m).2.1 = true := by
  have himg := assembleRaw_image hooks cfg.acceptsImages (some m) cfg eff m
  have := truncAssemble_over cfg
    (assembleRaw (processAttCR hooks cfg.acceptsImages (some m)) cfg eff m) himg h
  unfold normalizeCurr
  exact ⟨this.1, this.2⟩

/-- Witness for C8 at a concrete input: a six-character message against
`MAX_TEXT = 3`. -/
theorem claim_C8_witness :
    (turnText (normalizeCurr []
      { acceptsImages := false, acceptsNames := false, maxText := 3,
        maxImages := 2, botId := 9 } "abcdef".toList { id := 1, authorId := 2 }).1).length = 3 ∧
    (normalizeCurr []
      { acceptsImages := false, acceptsNames := false, maxText := 3,
        maxImages := 2, botId := 9 } "abcdef".toList { id := 1, authorId := 2 }).2.1 = true :=
  claim_C8 []
    { acceptsImages := false, acceptsNames := false, maxText := 3,
      maxImages := 2, botId := 9 } "abcdef".toList { id := 1, authorId := 2 }
    (by decide)

theorem pyJoin_nil_cons (p : PyStr) (ps : List PyStr) :
    pyJoin [] (p :: ps) = p ++ pyJoin [] ps := by
  cases ps <;> simp [pyJoin]

theorem pyJoin_nil_pos (ts : List PyStr) (h : ts ≠ [])
    (hne : ∀ t ∈ ts, t ≠ []) : 0 < (pyJoin [] ts).length := by
  cases ts with
  | nil => exact absurd rfl h
  | cons t ts' =>
    rw [pyJoin_nil_cons]
    have ht : t ≠ [] := hne t (by simp)
    cases t with
    | nil => exact absurd rfl ht
    | cons c cs => simp

/-- Invariant of the segment fold: with non-empty tokens totalling one
character over the limit, the fold closes the running segment exactly
once. -/
theorem segs_fold_two (maxLen : Nat) :
    ∀ (toks : List PyStr) (closed : List PyStr) (cur : PyStr),
    (∀ t ∈ toks, t ≠ []) →
    cur.length + (pyJoin [] toks).length = maxLen + 1 →
    toks ≠ [] →
    ∃ a b, toks.foldl (stepSeg maxLen) (closed, cur) = (closed ++ [a], b)
      ∧ a ++ b = cur ++ pyJoin [] toks ∧ a.length ≤ maxLen := by
  intro toks
  induction toks with
  | nil => intro _ _ _ _ hmt; exact absurd rfl hmt
  | cons t ts ih =>
    intro closed cur hne hlen _
    rcases hts : ts with _ | ⟨t', ts'⟩
    · subst hts
      have ht : t ≠ [] := hne t (by simp)
      have htpos : 0 < t.length := List.length_pos.mpr ht
      have hstep : stepSeg maxLen (closed, cur) t = (closed ++ [cur], t) := by
        unfold stepSeg
        rw [if_pos]
        have : pyJoin [] [t] = t := rfl
        rw [this] at hlen
        simp only [List.length_append]
        omega
      refine ⟨cur, t, ?_, ?_, ?_⟩
      · simp [hstep]
      · simp [pyJoin]
      · have : pyJoin [] [t] = t := rfl
        rw [this] at hlen
        omega
    · subst hts
      have hjoin : pyJoin [] (t :: t' :: ts') = t ++ pyJoin [] (t' :: ts') :=
        pyJoin_nil_cons _ _
      have hpos : 0 < (pyJoin [] (t' :: ts')).length :=
        pyJoin_nil_pos _ (by simp) (fun x hx => hne x (List.mem_cons_of_mem t hx))
      have hfit : ¬ maxLen < (cur ++ t).length := by
        rw [hjoin] at hlen
        simp only [List.length_append] at hlen ⊢
        omega
      have hstep : stepSeg maxLen (closed, cur) t = (closed, cur ++ t) := by
        unfold stepSeg
        rw [if_neg hfit]
      obtain ⟨a, b, hfold, hjoin2, hle⟩ := ih closed (cur ++ t)
        (fun x hx => hne x (List.mem_cons_of_mem t hx))
        (by rw [hjoin] at hlen; simp only [List.length_append] at hlen ⊢; omega)
        (by simp)
      refine ⟨a, b, ?_, ?_, hle⟩
      · rw [List.foldl_cons, hstep, hfold]
      · rw [hjoin2, hjoin, List.append_assoc]

/-- C2 (amended): for a token stream of non-empty tokens whose
concatenation exceeds the length limit by one character, the renderer
produces exactly two segments, split at a token boundary: together they
carry the whole concatenation and the first has length at most (not
exactly) the limit. -/
theorem claim_C2 (maxLen : Nat) (toks : List PyStr)
    (hne : ∀ t ∈ toks, t ≠ [])
    (hlen : (pyJoin [] toks).length = maxLen + 1) :
    ∃ a b, runSegs maxLen toks = [a, b]
      ∧ a ++ b = pyJoin [] toks ∧ a.length ≤ maxLen := by
  cases toks with
  | nil => simp [pyJoin] at hlen
  | cons t ts =>
    obtain ⟨a, b, hfold, hj, hle⟩ := segs_fold_two maxLen (t :: ts) [] []
      hne (by simpa using hlen) (by simp)
    refine ⟨a, b, ?_, by simpa using hj, hle⟩
    unfold runSegs
    rw [hfold]
    simp

/-- Witness for C2 at a concrete input: limit 5, tokens `abc`, `def`. -/
theorem claim_C2_witness :
    ∃ a b, runSegs 5 ["abc".toList, "def".toList] = [a, b]
      ∧ a ++ b = pyJoin [] ["abc".toList, "def".toList] ∧ a.length ≤ 5 :=
  claim_C2 5 ["abc".toList, "def".toList] (by decide) (by decide)

/-- Counterexample to C2 as stated: at the non-plain limit
`MAX_MESSAGE_LENGTH = 4094`, the stream `["ab", "c" * 4093]` exceeds the
limit by exactly one character, yet the renderer does **not** split
"precisely at the limit": it splits at the token boundary, leaving a
first segment of length 2 and a second of length 4093 instead of
lengths 4094 and 1. -/
theorem claim_C2_counterexample :
    (pyJoin [] [['a', 'b'], List.replicate 4093 'c']).length
        = MAX_MESSAGE_LENGTH false + 1 ∧
    runSegs (MAX_MESSAGE_LENGTH false) [['a', 'b'], List.replicate 4093 'c']
        = [['a', 'b'], List.replicate 4093 'c'] ∧
    (runSegs (MAX_MESSAGE_LENGTH false) [['a', 'b'], List.replicate 4093 'c']).map
        List.length ≠ [MAX_MESSAGE_LENGTH false, 1] := by
  have hmax : MAX_MESSAGE_LENGTH false = 4094 := by decide
  have hrep : (List.replicate 4093 'c').length = 4093 := List.length_replicate 4093 'c'
  have hsingle : pyJoin [] [List.replicate 4093 'c'] = List.replicate 4093 'c' := rfl
  have h1 : stepSeg 4094 (([] : List PyStr), ([] : PyStr)) ['a', 'b']
      = ([], ['a', 'b']) := by
    unfold stepSeg
    rw [if_neg (by simp)]
    rfl
  have h2 : stepSeg 4094 (([] : List PyStr), (['a', 'b'] : PyStr))
      (List.replicate 4093 'c') = ([['a', 'b']], List.replicate 4093 'c') := by
    unfold stepSeg
    rw [if_pos (by rw [List.length_append, hrep]; norm_num)]
    rfl
  have hrun : runSegs (MAX_MESSAGE_LENGTH false)
      [['a', 'b'], List.replicate 4093 'c']
      = [['a', 'b'], List.replicate 4093 'c'] := by
    rw [hmax]
    unfold runSegs
    rw [List.foldl_cons, h1, List.foldl_cons, h2, List.foldl_nil]
    rfl
  refine ⟨?_, hrun, ?_⟩
  · rw [hmax, pyJoin_nil_cons, hsingle, List.length_append, hrep]
    rfl
  · rw [hrun, hmax]
    simp only [List.map_cons, List.map_nil, hrep]
    simp

/-- Index of the first hook that returns the literal `False` on `m`. -/
def firstFalseIdx (hooks : List OmrHook) (m : Msg) : Option Nat :=
  match hooks with
  | [] => none
  | h :: hs =>
    if h m == OmrOut.ret true then some 0
    else (firstFalseIdx hs m).map (· + 1)

/-- C3 (amended): the `on_message_received` fan-out invokes callables in
registration order only up to (and including) the first one that
returns `False`: that callable stops the fan-out immediately — the
remaining registered callables are **not** invoked — and normal
processing is skipped; raising callables do not stop the fan-out.
Formally, the dispatch result is `(i + 1, true)` when hook `i` is the
first returning `False`, and `(length, false)` when none does. -/
theorem claim_C3 (hooks : List OmrHook) (m : Msg) :
    omrRun hooks m =
      match firstFalseIdx hooks m with
      | some i => (i + 1, true)
      | none => (hooks.length, false) := by
  induction hooks with
  | nil => rfl
  | cons h hs ih =>
    unfold omrRun firstFalseIdx
    cases hh : h m with
    | raise =>
      rw [ih]
      cases firstFalseIdx hs m <;> simp
    | ret b =>
      cases b with
      | true => simp
      | false =>
        rw [ih]
        cases firstFalseIdx hs m <;> simp

/-- Counterexample to C3 as stated: with two registered hooks where the
first returns `False`, the second is never invoked (only 1 hook runs,
not 2), because the loop `break`s on a `False` result. -/
theorem claim_C3_counterexample :
    omrRun [fun _ => OmrOut.ret true, fun _ => OmrOut.ret false]
      { id := 1, authorId := 2 } = (1, true) ∧
    (omrRun [fun _ => OmrOut.ret true, fun _ => OmrOut.ret false]
      { id := 1, authorId := 2 }).1 ≠ 2 :=
  ⟨rfl, by decide⟩

/-- C7: a raising callable is logged and treated as a no-op at every
extension point — dispatch proceeds to all remaining callables in
registration order with the same result as if the callable had returned
`None`; in particular the `before_llm_call` pipeline and the pure
fan-outs always invoke every registered callable. -/
theorem claim_C7 :
    (∀ (pre post : List OmrHook) (m : Msg),
      omrRun (pre ++ (fun _ => OmrOut.raise) :: post) m
        = omrRun (pre ++ (fun _ => OmrOut.ret false) :: post) m) ∧
    (∀ (pre post : List PAHook) (att : Attachment) (acc : Bool) (mo : Option Msg),
      paRun (pre ++ (fun _ _ _ => PAOut.raise) :: post) att acc mo
        = paRun (pre ++ (fun _ _ _ => PAOut.ret none) :: post) att acc mo) ∧
    (∀ (pre post : List BlcHook) (ms : List TurnData) (m : Msg),
      blcRun (pre ++ (fun _ _ => BlcOut.raise) :: post) ms m
        = blcRun (pre ++ (fun _ _ => BlcOut.ret none) :: post) ms m) ∧
    (∀ (hooks : List BlcHook) (ms : List TurnData) (m : Msg),
      (blcRun hooks ms m).2 = hooks.length) ∧
    (∀ hooks : List FanOut, fanRun hooks = hooks.length) := by
  refine ⟨?_, ?_, ?_, ?_, ?_⟩
  · intro pre post m
    induction pre with
    | nil => rfl
    | cons h pre ih =>
      simp only [List.cons_append]
      unfold omrRun
      cases h m with
      | raise => rw [ih]
      | ret b => cases b with
        | true => rfl
        | false => rw [ih]
  · intro pre post att acc mo
    induction pre with
    | nil => rfl
    | cons h pre ih =>
      simp only [List.cons_append]
      unfold paRun
      cases h att acc mo with
      | raise => rw [ih]
      | ret r => cases r with
        | none => rw [ih]
        | some d => rfl
  · intro pre post ms m
    induction pre generalizing ms with
    | nil => rfl
    | cons h pre ih =>
      simp only [List.cons_append]
      unfold blcRun
      cases h ms m with
      | raise => dsimp only; rw [ih]
      | ret r => cases r with
        | none => dsimp only; rw [ih]
        | some l => dsimp only; rw [ih]
  · intro hooks
    induction hooks with
    | nil => intro ms m; rfl
    | cons h hs ih =>
      intro ms m
      unfold blcRun
      cases h ms m with
      | raise => dsimp only; rw [ih]; rfl
      | ret r => cases r with
        | none => dsimp only; rw [ih]; rfl
        | some l => dsimp only; rw [ih]; rfl
  · intro hooks
    induction hooks with
    | nil => rfl
    | cons h hs ih => unfold fanRun; rw [ih]; rfl

/-- C9: in the `process_attachment` dispatch, once a hook returns a
truthy result (here: a dict with a non-empty caption) after any number
of raising/falsy hooks, dispatch short-circuits — exactly the hooks up
to and including it are invoked, none later — the attachment counts as
processed, and the caption is appended as the bracketed
`[Image description: ...]` text; the image parts are exactly those the
claiming hook contributed. -/
theorem claim_C9 (pre post : List PAHook) (att : Attachment) (acc : Bool)
    (mo : Option Msg) (d : PADict) (c : PyStr)
    (hpre : ∀ h ∈ pre, h att acc mo = PAOut.raise ∨ h att acc mo = PAOut.ret none)
    (hcap : d.caption = some c) (hc : c ≠ []) :
    (paRun (pre ++ (fun _ _ _ => PAOut.ret (some d)) :: post) att acc mo).2.2.2
        = pre.length + 1 ∧
    (paRun (pre ++ (fun _ _ _ => PAOut.ret (some d)) :: post) att acc mo).2.2.1
        = true ∧
    (paRun (pre ++ (fun _ _ _ => PAOut.ret (some d)) :: post) att acc mo).1
        = [captionText c] ∧
    (paRun (pre ++ (fun _ _ _ => PAOut.ret (some d)) :: post) att acc mo).2.1
        = (claimAdds att acc d).2 := by
  induction pre with
  | nil =>
    have hcempty : c.isEmpty = false := by
      cases c with
      | nil => exact absurd rfl hc
      | cons a l => rfl
    simp only [List.nil_append]
    unfold paRun
    dsimp only
    refine ⟨rfl, rfl, ?_, rfl⟩
    unfold claimAdds
    rw [hcap]
    simp [hcempty]
  | cons h pre ih =>
    have hh := hpre h (by simp)
    have hrest : ∀ g ∈ pre, g att acc mo = PAOut.raise ∨ g att acc mo = PAOut.ret none :=
      fun g hg => hpre g (List.mem_cons_of_mem h hg)
    obtain ⟨i1, i2, i3, i4⟩ := ih hrest
    simp only [List.cons_append]
    unfold paRun
    rcases hh with hh | hh <;> rw [hh] <;> dsimp only <;>
      exact ⟨by rw [i1]; rfl, i2, i3, i4⟩

/-- The attachment used by the C9 witness. -/
def c9att : Attachment :=
  { filename := "car.png".toList, contentType := some "image/png".toList
    size := 5, fetchedText := [], fetchedB64 := [] }

/-- The claiming hook result used by the C9 witness. -/
def c9dict : PADict := { caption := some "a red car".toList, imageData := none }

/-- The never-reached hook result used by the C9 witness. -/
def c9dict2 : PADict := { caption := some "ignored".toList, imageData := none }

/-- Witness for C9 at a concrete input: one falsy hook, then a hook
claiming the attachment with caption `a red car`, then a further hook
that is never reached. -/
theorem claim_C9_witness :
    (paRun ([fun _ _ _ => PAOut.ret none]
        ++ (fun _ _ _ => PAOut.ret (some c9dict))
          :: [fun _ _ _ => PAOut.ret (some c9dict2)]) c9att false none).2.2.2 = 2 ∧
    (paRun ([fun _ _ _ => PAOut.ret none]
        ++ (fun _ _ _ => PAOut.ret (some c9dict))
          :: [fun _ _ _ => PAOut.ret (some c9dict2)]) c9att false none).2.2.1 = true ∧
    (paRun ([fun _ _ _ => PAOut.ret none]
        ++ (fun _ _ _ => PAOut.ret (some c9dict))
          :: [fun _ _ _ => PAOut.ret (some c9dict2)]) c9att false none).1
        = [captionText "a red car".toList] ∧
    (paRun ([fun _ _ _ => PAOut.ret none]
        ++ (fun _ _ _ => PAOut.ret (some c9dict))
          :: [fun _ _ _ => PAOut.ret (some c9dict2)]) c9att false none).2.1
        = (claimAdds c9att false c9dict).2 :=
  claim_C9 [fun _ _ _ => PAOut.ret none]
    [fun _ _ _ => PAOut.ret (some c9dict2)] c9att false none c9dict
    "a red car".toList
    (by intro h hh
        simp only [List.mem_singleton] at hh
        subst hh
        right
        rfl)
    rfl (by decide)

theorem histLoop_char (hooks : List PAHook) (cfg : NormCfg) (newMsg : Msg) :
    ∀ (l : List Msg) (nodes : NodeMap),
    histLoop hooks cfg newMsg l nodes
      = histFold hooks cfg
          ((l.filter (fun p => !botEmptySkip cfg p)).takeWhile
            (withinWindow newMsg)) nodes := by
  intro l
  induction l with
  | nil => intro nodes; rfl
  | cons p ps ih =>
    intro nodes
    rcases hbe : botEmptySkip cfg p with _ | _
    · rcases hw : withinWindow newMsg p with _ | _
      · simp [histLoop, histFold, hbe, hw, List.filter_cons, List.takeWhile_cons]
      · simp only [histLoop, histFold, hbe, hw, List.filter_cons,
          List.takeWhile_cons, Bool.not_false, if_true, Bool.false_eq_true,
          if_false]
        rw [ih]
        simp
    · simp only [histLoop, hbe, List.filter_cons, Bool.not_true,
        Bool.false_eq_true, if_false, if_true]
      exact ih nodes

/-- C4 (amended): when the start message is not a reply, the fallback
scan processes — among the first `max_turns` messages fetched from the
channel history — the longest prefix of messages inside the 300-second
recency window, after discarding the bot's own empty messages; it stops
at the first (non-discarded) message older than the window or when the
`max_turns` fetch limit runs out, and it does **not** stop at a message
from a different author. -/
theorem claim_C4 (hooks : List PAHook) (cfg : NormCfg) (newMsg : Msg)
    (chanHist : List Msg) (maxMsgs : Nat) (nodes : NodeMap) :
    historyWalk hooks cfg newMsg chanHist maxMsgs nodes
      = charHistoryWalk hooks cfg newMsg chanHist maxMsgs nodes := by
  unfold historyWalk charHistoryWalk
  rw [histLoop_char]

/-- The configuration used by the C4 counterexample. -/
def c4cfg : NormCfg :=
  { acceptsImages := false, acceptsNames := false, maxText := 2000
    maxImages := 2, botId := 99 }

/-- The start message of the C4 counterexample (author 10). -/
def c4new : Msg := { id := 100, authorId := 10, content := "hello".toList
                     createdAt := 1000 }

/-- The most recent preceding message — a *different* author (20). -/
def c4b : Msg := { id := 90, authorId := 20, content := "hi".toList
                   createdAt := 990 }

/-- The next preceding message, by the start author again. -/
def c4c : Msg := { id := 80, authorId := 10, content := "yo".toList
                   createdAt := 980 }

/-- Counterexample to C4 as stated: the code's history scan does not
stop at the first message from a different author.  With the
immediately preceding message authored by someone else (within the
window), the spec's scan (`specHistoryScan`, stopping at the author
change) yields no turns, while the code's scan returns both preceding
turns, the different author's included. -/
theorem claim_C4_counterexample :
    specHistoryScan [] c4cfg c4new [c4b, c4c] 5 = [] ∧
    (historyWalk [] c4cfg c4new [c4b, c4c] 5 []).1
      = [{ content := .str "yo".toList, role := "user".toList, name := none },
         { content := .str "hi".toList, role := "user".toList, name := none }] ∧
    (historyWalk [] c4cfg c4new [c4b, c4c] 5 []).1
      ≠ specHistoryScan [] c4cfg c4new [c4b, c4c] 5 := by
  refine ⟨by decide, by decide, by decide⟩

theorem streamChunk_nodes (maxLen : Nat) (st : StreamSt) (t : PyStr)
    (h : st.outNodes.length = st.segments.length) :
    (streamChunk maxLen st t).outNodes.length
      = (streamChunk maxLen st t).segments.length := by
  obtain ⟨closed, cur, nodes, sent⟩ := st
  cases cur with
  | none =>
    simp only [StreamSt.segments] at h
    have hn : nodes = [] := List.length_eq_zero.mp (by simpa using h)
    subst hn
    unfold streamChunk
    dsimp only
    split <;> simp [StreamSt.segments]
  | some c =>
    simp only [StreamSt.segments] at h
    unfold streamChunk
    dsimp only
    split <;> simp_all [StreamSt.segments]

theorem streamPhase_nodes (maxLen : Nat) (consumed : List PyStr) :
    (streamPhase maxLen consumed).outNodes.length
      = (streamPhase maxLen consumed).segments.length := by
  unfold streamPhase
  suffices h : ∀ (st : StreamSt), st.outNodes.length = st.segments.length →
      (consumed.foldl (streamChunk maxLen) st).outNodes.length
        = (consumed.foldl (streamChunk maxLen) st).segments.length by
    exact h ⟨[], none, [], 0⟩ rfl
  induction consumed with
  | nil => intro st h; exact h
  | cons t ts ih =>
    intro st h
    rw [List.foldl_cons]
    exact ih _ (streamChunk_nodes maxLen st t h)

theorem plainFallback_nodes (usePlain errored : Bool) (st : StreamSt)
    (h : st.outNodes.length = st.segments.length) :
    (plainFallback usePlain errored st).outNodes.length
      = (plainFallback usePlain errored st).segments.length ∧
    (plainFallback usePlain errored st).segments = st.segments := by
  unfold plainFallback
  split
  · rename_i hcond
    have hempty : st.outNodes = [] := by
      rw [Bool.and_eq_true, Bool.and_eq_true] at hcond
      exact List.isEmpty_iff.mp hcond.1.2
    refine ⟨?_, rfl⟩
    show (st.outNodes ++ st.segments.map (fun _ => freshHeldNode)).length
      = st.segments.length
    rw [hempty]
    simp
  · exact ⟨h, rfl⟩

/-- C6: whatever the token stream does — completes normally or raises
mid-stream after any number of chunks — the renderer ends with every
outbound `MsgNode` released (guard down) and holding, as its assistant
turn, the concatenation of **all** accumulated segments; and exactly one
user-visible failure notice is sent when (and only when) the stream
raised, while the already-sent transport messages are kept (`sent` is
whatever the stream pushed, never rolled back). -/
theorem claim_C6 (maxLen : Nat) (usePlain acceptsNames : Bool) (botId : Nat)
    (toks : List PyStr) (errAt : Option Nat) :
    (renderRun maxLen usePlain acceptsNames botId toks errAt).outNodes
      = List.replicate
          (renderRun maxLen usePlain acceptsNames botId toks errAt).segments.length
          { data := some (assistantData acceptsNames botId
              (pyJoin []
                (renderRun maxLen usePlain acceptsNames botId toks errAt).segments))
            locked := false } ∧
    (renderRun maxLen usePlain acceptsNames botId toks errAt).notices
      = (if errAt.isSome then 1 else 0) ∧
    (renderRun maxLen usePlain acceptsNames botId toks errAt).sent
      = (plainFallback usePlain errAt.isSome
          (streamPhase maxLen (match errAt with
            | none => toks
            | some k => toks.take k))).sent := by
  have hst := streamPhase_nodes maxLen (match errAt with
    | none => toks
    | some k => toks.take k)
  obtain ⟨hlen, hsegs⟩ := plainFallback_nodes usePlain errAt.isSome _ hst
  unfold renderRun
  refine ⟨?_, rfl, rfl⟩
  unfold finalizePhase
  dsimp only
  rw [← hlen]
  exact List.map_const _ _

/-- A cache holding a fresh (unlocked, unpopulated) node per id. -/
def mkFreshNm (ids : List Nat) : NodeMap :=
  ids.map (fun i => (i, ({} : MsgNodeM)))

theorem mkFreshNm_keys (ids : List Nat) : nmKeys (mkFreshNm ids) = ids := by
  unfold nmKeys mkFreshNm
  rw [List.map_map]
  induction ids with
  | nil => rfl
  | cons i tl ih => rw [List.map_cons, ih]; rfl

theorem mkFreshNm_filter (ids : List Nat) (i : Nat) (h : i ∉ ids) :
    (mkFreshNm ids).filter (fun p => p.1 ≠ i) = mkFreshNm ids := by
  rw [List.filter_eq_self]
  intro p hp
  unfold mkFreshNm at hp
  rw [List.mem_map] at hp
  obtain ⟨j, hj, rfl⟩ := hp
  simp only [decide_eq_true_eq]
  exact fun hji => h (hji ▸ hj)

theorem sweep_fresh (ids : List Nat) (hnd : ids.Nodup) :
    ∀ k : Nat, sweepRun (mkFreshNm ids) (ids.take k)
      = (mkFreshNm (ids.drop k), []) := by
  induction ids with
  | nil => intro k; cases k <;> rfl
  | cons i tl ih =>
    intro k
    cases k with
    | zero => rfl
    | succ k =>
      rw [List.take_succ_cons, List.drop_succ_cons]
      have hfind : nmFind (mkFreshNm (i :: tl)) i = some {} := by
        unfold mkFreshNm nmFind
        simp [List.find?_cons]
      have hni : i ∉ tl := (List.nodup_cons.mp hnd).1
      have herase : nmErase (mkFreshNm (i :: tl)) i = mkFreshNm tl := by
        unfold nmErase
        show ((i, ({} : MsgNodeM)) :: mkFreshNm tl).filter (fun p => p.1 ≠ i)
          = mkFreshNm tl
        rw [List.filter_cons]
        have hcond : (decide ((i, ({} : MsgNodeM)).1 ≠ i)) = false := by simp
        rw [hcond]
        simp only [Bool.false_eq_true, if_false]
        exact mkFreshNm_filter tl i hni
      show sweepRun (mkFreshNm (i :: tl)) (i :: tl.take k) = _
      unfold sweepRun
      rw [hfind]
      simp only [Bool.false_eq_true, if_false]
      rw [herase]
      exact ih (List.nodup_cons.mp hnd).2 k

theorem evict_fresh (cap : Nat) (ids : List Nat) (nm : NodeMap)
    (hsort : ids.Sorted (· ≤ ·)) (hlen : ids.length = cap + 5)
    (hkeys : nmKeys nm = ids) :
    evictVictims cap nm = ids.take 5 := by
  have hnmlen : nm.length = ids.length := by
    have := congrArg List.length hkeys
    simpa [nmKeys] using this
  unfold evictVictims
  rw [if_pos (by omega), hkeys, List.mergeSort_eq_self hsort, hnmlen, hlen]
  congr 1
  omega

theorem nmKeys_held (v0 : Nat) (rest : List Nat) :
    nmKeys ((v0, freshHeldNode) :: mkFreshNm rest) = v0 :: rest := by
  unfold nmKeys
  rw [List.map_cons]
  have := mkFreshNm_keys rest
  unfold nmKeys at this
  rw [this]

theorem nmUnlock_held (v0 : Nat) (rest : List Nat) (h : v0 ∉ rest) :
    nmUnlock ((v0, freshHeldNode) :: mkFreshNm rest) v0
      = mkFreshNm (v0 :: rest) := by
  unfold nmUnlock
  rw [List.map_cons]
  show (if v0 = v0 then (v0, { freshHeldNode with locked := false })
      else (v0, freshHeldNode)) :: (mkFreshNm rest).map _
    = (v0, ({} : MsgNodeM)) :: mkFreshNm rest
  rw [if_pos rfl]
  congr 1
  unfold mkFreshNm
  rw [List.map_map]
  apply List.map_congr_left
  intro j hj
  have : j ≠ v0 := fun hjv => h (hjv ▸ hj)
  simp [this]

/-- C5 (amended): after inserting `capacity + 5` nodes with strictly
increasing identifiers, the eviction sweep targets exactly the 5
lowest-identifier nodes and, with no guards held, removes exactly them.
A victim whose guard is currently held is not removed while the guard is
held — but the sweep does not skip it and move on: it **suspends** on
that victim's guard, removing nothing further; once the guard is
released, the same suspended sweep resumes and removes all 5 victims
(no later sweep is involved). -/
theorem claim_C5 (cap v0 : Nat) (rest : List Nat)
    (hsort : (v0 :: rest).Sorted (· < ·))
    (hlen : (v0 :: rest).length = cap + 5) :
    evictVictims cap (mkFreshNm (v0 :: rest)) = (v0 :: rest).take 5 ∧
    sweepRun (mkFreshNm (v0 :: rest)) ((v0 :: rest).take 5)
      = (mkFreshNm ((v0 :: rest).drop 5), []) ∧
    evictVictims cap ((v0, freshHeldNode) :: mkFreshNm rest)
      = (v0 :: rest).take 5 ∧
    sweepRun ((v0, freshHeldNode) :: mkFreshNm rest) ((v0 :: rest).take 5)
      = ((v0, freshHeldNode) :: mkFreshNm rest, (v0 :: rest).take 5) ∧
    sweepRun (nmUnlock ((v0, freshHeldNode) :: mkFreshNm rest) v0)
        ((v0 :: rest).take 5)
      = (mkFreshNm ((v0 :: rest).drop 5), []) := by
  have hsle : (v0 :: rest).Sorted (· ≤ ·) :=
    hsort.imp (fun hab => le_of_lt hab)
  have hnd : (v0 :: rest).Nodup := hsort.imp (fun hab => ne_of_lt hab)
  have hv0 : v0 ∉ rest := (List.nodup_cons.mp hnd).1
  refine ⟨?_, ?_, ?_, ?_, ?_⟩
  · exact evict_fresh cap _ _ hsle hlen (mkFreshNm_keys _)
  · exact sweep_fresh _ hnd 5
  · exact evict_fresh cap _ _ hsle hlen (nmKeys_held v0 rest)
  · rw [List.take_succ_cons]
    have hfind : nmFind ((v0, freshHeldNode) :: mkFreshNm rest) v0
        = some freshHeldNode := by
      unfold nmFind
      simp [List.find?_cons]
    unfold sweepRun
    rw [hfind]
    rfl
  · rw [nmUnlock_held v0 rest hv0]
    exact sweep_fresh _ hnd 5

/-- Witness for C5 at a concrete input: capacity 0 with the 5 ids
1 … 5. -/
theorem claim_C5_witness :
    evictVictims 0 (mkFreshNm [1, 2, 3, 4, 5]) = [1, 2, 3, 4, 5].take 5 ∧
    sweepRun (mkFreshNm [1, 2, 3, 4, 5]) ([1, 2, 3, 4, 5].take 5)
      = (mkFreshNm ([1, 2, 3, 4, 5].drop 5), []) ∧
    evictVictims 0 ((1, freshHeldNode) :: mkFreshNm [2, 3, 4, 5])
      = [1, 2, 3, 4, 5].take 5 ∧
    sweepRun ((1, freshHeldNode) :: mkFreshNm [2, 3, 4, 5])
        ([1, 2, 3, 4, 5].take 5)
      = ((1, freshHeldNode) :: mkFreshNm [2, 3, 4, 5], [1, 2, 3, 4, 5].take 5) ∧
    sweepRun (nmUnlock ((1, freshHeldNode) :: mkFreshNm [2, 3, 4, 5]) 1)
        ([1, 2, 3, 4, 5].take 5)
      = (mkFreshNm ([1, 2, 3, 4, 5].drop 5), []) :=
  claim_C5 0 1 [2, 3, 4, 5] (by decide) (by decide)

/-- Counterexample to C5 as stated: with capacity 3 and the 8 ids 1 … 8,
node 1's guard held.  The claim reads the sweep as removing the other
victims while the held node survives it; in fact the sweep suspends on
node 1's guard and removes **nothing** — node 2, unheld and among the 5
lowest, is still cached after the sweep parks — and after node 1's guard
is released the *same* pending sweep (not a later one) removes all five
victims including node 1. -/
theorem claim_C5_counterexample :
    evictVictims 3 ((1, freshHeldNode) :: mkFreshNm [2, 3, 4, 5, 6, 7, 8])
      = [1, 2, 3, 4, 5] ∧
    sweepRun ((1, freshHeldNode) :: mkFreshNm [2, 3, 4, 5, 6, 7, 8])
        [1, 2, 3, 4, 5]
      = ((1, freshHeldNode) :: mkFreshNm [2, 3, 4, 5, 6, 7, 8],
         [1, 2, 3, 4, 5]) ∧
    nmFind (sweepRun ((1, freshHeldNode) :: mkFreshNm [2, 3, 4, 5, 6, 7, 8])
        [1, 2, 3, 4, 5]).1 2 = some {} ∧
    sweepRun (nmUnlock ((1, freshHeldNode) :: mkFreshNm [2, 3, 4, 5, 6, 7, 8]) 1)
        [1, 2, 3, 4, 5]
      = (mkFreshNm [6, 7, 8], []) := by
  have hev : evictVictims 3 ((1, freshHeldNode) :: mkFreshNm [2, 3, 4, 5, 6, 7, 8])
      = [1, 2, 3, 4, 5] := by
    unfold evictVictims
    rw [if_pos (by decide)]
    rw [nmKeys_held 1 [2, 3, 4, 5, 6, 7, 8],
      List.mergeSort_eq_self (by decide)]
    decide
  refine ⟨hev, by decide, by decide, by decide⟩

/-- C10: an inbound message (not the bot's own) whose text begins with
`//` makes `on_message` return right after the `on_message_received`
fan-out: no command is dispatched, no context chain is built, no model
call is made, no reply is sent, and the `MsgNode` cache is left exactly
as it was.  (If a fan-out hook already signalled stop, the same holds
via the stop return.) -/
theorem claim_C10 (cfg : BotCfg) (omrHooks : List OmrHook)
    (paHooks : List PAHook) (blcHooks : List BlcHook)
    (afrHooks : List FanOut) (commands : List (PyStr × CmdHook))
    (sysTurn : TurnData) (env : Nat → Option Msg) (chanHist : List Msg)
    (fuel : Nat) (toks : List PyStr) (errAt : Option Nat)
    (outIds : List Nat) (msgCount : Nat) (conv : ConverseSt)
    (nodes : NodeMap) (m : Msg)
    (hauthor : m.authorId ≠ cfg.botId)
    (hslash : pyStartsWith m.content "//".toList = true) :
    onMessageModel cfg omrHooks paHooks blcHooks afrHooks commands sysTurn
        env chanHist fuel toks errAt outIds msgCount conv nodes m
      = (.slashComment, nodes, {}) ∨
    onMessageModel cfg omrHooks paHooks blcHooks afrHooks commands sysTurn
        env chanHist fuel toks errAt outIds msgCount conv nodes m
      = (.hookStopped, nodes, {}) := by
  have h1 : (m.authorId == cfg.botId) = false := by
    simp [hauthor]
  unfold onMessageModel
  simp only [h1, Bool.false_eq_true, if_false]
  rcases hstop : (omrRun omrHooks m).2 with _ | _
  · simp only [Bool.false_eq_true, if_false, hslash, if_true]
    exact Or.inl trivial
  · simp only [if_true]
    exact Or.inr trivial

/-- Witness for C10 at a concrete input: a `//`-prefixed message with a
non-empty cache and no registered hooks. -/
theorem claim_C10_witness :
    onMessageModel { botId := 99 } [] [] [] [] []
        { content := .str "sys".toList, role := "system".toList, name := none }
        (fun _ => none) [] 3 [] none [] 0 {} [(3, {})]
        { id := 5, authorId := 7, content := "//secret".toList }
      = (.slashComment, [(3, {})], {}) ∨
    onMessageModel { botId := 99 } [] [] [] [] []
        { content := .str "sys".toList, role := "system".toList, name := none }
        (fun _ => none) [] 3 [] none [] 0 {} [(3, {})]
        { id := 5, authorId := 7, content := "//secret".toList }
      = (.hookStopped, [(3, {})], {}) :=
  claim_C10 { botId := 99 } [] [] [] [] []
    { content := .str "sys".toList, role := "system".toList, name := none }
    (fun _ => none) [] 3 [] none [] 0 {} [(3, {})]
    { id := 5, authorId := 7, content := "//secret".toList }
    (by decide) (by decide)

theorem nmFind_mapSet (nm : NodeMap) (i : Nat) (nd : MsgNodeM) (j : Nat)
    (hj : j ≠ i) :
    nmFind (nm.map (fun p => if p.1 = i then (i, nd) else p)) j
      = nmFind nm j := by
  induction nm with
  | nil => rfl
  | cons p tl ih =>
    unfold nmFind at *
    rw [List.map_cons, List.find?_cons, List.find?_cons]
    by_cases hpi : p.1 = i
    · rw [if_pos hpi]
      have h1 : (decide (((i, nd) : Nat × MsgNodeM).1 = j)) = false := by
        simp only [decide_eq_false_iff_not]
        exact fun h => hj h.symm
      have h2 : (decide (p.1 = j)) = false := by
        simp only [decide_eq_false_iff_not, hpi]
        exact fun h => hj h.symm
      rw [h1, h2]
      exact ih
    · rw [if_neg hpi]
      cases hpj : (decide (p.1 = j)) with
      | true => rfl
      | false => exact ih

theorem nmFind_mapSet_self (nm : NodeMap) (i : Nat) (nd : MsgNodeM)
    (h : (nm.find? (fun p => p.1 = i)).isSome = true) :
    nmFind (nm.map (fun p => if p.1 = i then (i, nd) else p)) i
      = some nd := by
  induction nm with
  | nil => simp at h
  | cons p tl ih =>
    rw [List.map_cons]
    unfold nmFind
    rw [List.find?_cons]
    by_cases hpi : p.1 = i
    · rw [if_pos hpi]
      simp
    · rw [if_neg hpi]
      have hskip : (decide (p.1 = i)) = false := by simp [hpi]
      rw [hskip]
      rw [List.find?_cons, hskip] at h
      exact ih h

theorem nmFind_set (nm : NodeMap) (i : Nat) (nd : MsgNodeM) (j : Nat) :
    nmFind (nmSet nm i nd) j = if j = i then some nd else nmFind nm j := by
  unfold nmSet
  split
  · rename_i hfound
    by_cases hj : j = i
    · subst hj
      rw [if_pos rfl]
      exact nmFind_mapSet_self nm j nd hfound
    · rw [if_neg hj]
      exact nmFind_mapSet nm i nd j hj
  · rename_i hnotfound
    have hnone : nm.find? (fun p => p.1 = i) = none :=
      Option.not_isSome_iff_eq_none.mp hnotfound
    unfold nmFind
    rw [List.find?_append]
    by_cases hj : j = i
    · subst hj
      rw [if_pos rfl, hnone, Option.none_or, List.find?_cons]
      have hd : (decide (((j, nd) : Nat × MsgNodeM).1 = j)) = true := by simp
      rw [hd]
      rfl
    · rw [if_neg hj]
      have hsingle : (List.find? (fun p => decide (p.1 = j)) [(i, nd)]) = none := by
        rw [List.find?_cons]
        have hd : (decide (((i, nd) : Nat × MsgNodeM).1 = j)) = false := by
          simp only [decide_eq_false_iff_not]
          exact fun h => hj h.symm
        rw [hd]
        rfl
      rw [hsingle, Option.or_none]

/-- Resolution of a reply-chain node not yet in the cache computes the
normaliser's turn and stores it. -/
theorem resolveRefNode_fresh (hooks : List PAHook) (cfg : NormCfg)
    (nodes : NodeMap) (m : Msg) (h : nmFind nodes m.id = none) :
    resolveRefNode hooks cfg nodes m
      = ((normalizeRef hooks cfg m).1,
         nmSet nodes m.id
           { data := some (normalizeRef hooks cfg m).1
             tooMuchText := (normalizeRef hooks cfg m).2 }) := by
  unfold resolveRefNode
  rw [h]

/-- The reply chain reachable from a start message: the messages
obtained by following `reference` via `env` until a message with no
reference (`stop`) or a failing fetch (`fail`). -/
inductive ReplyChain (env : Nat → Option Msg) : Msg → List Msg → Prop where
  | stop : ∀ m, m.reference = none → ReplyChain env m []
  | fail : ∀ m rid, m.reference = some rid → env rid = none →
      ReplyChain env m []
  | cons : ∀ m rid r ms, m.reference = some rid → env rid = some r →
      ReplyChain env r ms → ReplyChain env m (r :: ms)

theorem replyWalkGo_chain (hooks : List PAHook) (cfg : NormCfg)
    (env : Nat → Option Msg) (m : Msg) (ms : List Msg) :
    ReplyChain env m ms →
    ∀ (fuel : Nat) (nodes : NodeMap),
    ms.length ≤ fuel →
    (∀ r ∈ ms, nmFind nodes r.id = none) →
    (ms.map Msg.id).Nodup →
    (replyWalkGo hooks cfg env fuel nodes m).1
        = (ms.map (fun r => (normalizeRef hooks cfg r).1)).filter
            (fun t => t.content.truthy) ∧
    (replyWalkGo hooks cfg env fuel nodes m).2.2 = ms.length := by
  intro hchain
  induction hchain with
  | stop m href =>
    intro fuel nodes _ _ _
    cases fuel with
    | zero => exact ⟨rfl, rfl⟩
    | succ f =>
      unfold replyWalkGo
      rw [href]
      exact ⟨rfl, rfl⟩
  | fail m rid href henv =>
    intro fuel nodes _ _ _
    cases fuel with
    | zero => exact ⟨rfl, rfl⟩
    | succ f =>
      unfold replyWalkGo
      rw [href]
      dsimp only
      rw [henv]
      exact ⟨rfl, rfl⟩
  | cons m rid r ms href henv hchain ih =>
    intro fuel nodes hfuel hfresh hnd
    cases fuel with
    | zero => simp at hfuel
    | succ f =>
      unfold replyWalkGo
      rw [href]
      dsimp only
      rw [henv]
      dsimp only
      have hrfresh : nmFind nodes r.id = none := hfresh r (by simp)
      rw [resolveRefNode_fresh hooks cfg nodes r hrfresh]
      have hfresh' : ∀ x ∈ ms,
          nmFind (nmSet nodes r.id
            { data := some (normalizeRef hooks cfg r).1
              tooMuchText := (normalizeRef hooks cfg r).2 }) x.id = none := by
        intro x hx
        rw [nmFind_set]
        have hxid : x.id ≠ r.id := by
          rw [List.map_cons, List.nodup_cons] at hnd
          intro hxr
          exact hnd.1 (hxr ▸ List.mem_map_of_mem Msg.id hx)
        rw [if_neg hxid]
        exact hfresh x (List.mem_cons_of_mem r hx)
      have hnd' : (ms.map Msg.id).Nodup := by
        rw [List.map_cons, List.nodup_cons] at hnd
        exact hnd.2
      obtain ⟨ih1, ih2⟩ := ih f _
        (by simp only [List.length_cons] at hfuel; omega) hfresh' hnd'
      dsimp only
      constructor
      · rw [ih1, List.map_cons, List.filter_cons]
        cases ht : ((normalizeRef hooks cfg r).1).content.truthy <;> simp [ht]
      · rw [ih2]
        rfl

/-- C1 (amended): the reply-chain context build follows the predecessor
links through the **whole** chain — one fetch per chain message, with no
`max_turns` bound on the number of hops — and assembles the turns
oldest-first; the `max_turns` bound is applied only afterwards, by
truncating the final request to the system prompt plus the first
(**oldest**) `max_turns` turns, so for a chain of non-empty turns longer
than `max_turns` exactly `max_turns` non-empty turns are kept,
oldest-first, and the newest turns — the current message's included —
are dropped. -/
theorem claim_C1 (hooks : List PAHook) (cfg : NormCfg)
    (env : Nat → Option Msg) (m : Msg) (ms : List Msg)
    (fuel maxMsgs : Nat) (nodes : NodeMap) (sysTurn curTurn : TurnData)
    (hchain : ReplyChain env m ms)
    (hfuel : ms.length ≤ fuel)
    (hfresh : ∀ r ∈ ms, nmFind nodes r.id = none)
    (hnd : (ms.map Msg.id).Nodup)
    (htruthy : ∀ r ∈ ms, ((normalizeRef hooks cfg r).1).content.truthy = true)
    (hlong : maxMsgs ≤ ms.length) :
    (replyWalk hooks cfg env fuel nodes m).2.2 = ms.length ∧
    (replyWalk hooks cfg env fuel nodes m).1
      = (ms.map (fun r => (normalizeRef hooks cfg r).1)).reverse ∧
    buildMessages sysTurn
        (appendCurrent (replyWalk hooks cfg env fuel nodes m).1 curTurn) maxMsgs
      = sysTurn
        :: ((ms.map (fun r => (normalizeRef hooks cfg r).1)).reverse).take maxMsgs ∧
    (((ms.map (fun r => (normalizeRef hooks cfg r).1)).reverse).take maxMsgs).length
      = maxMsgs := by
  obtain ⟨h1, h2⟩ := replyWalkGo_chain hooks cfg env m ms hchain fuel nodes
    hfuel hfresh hnd
  have hfilter : (ms.map (fun r => (normalizeRef hooks cfg r).1)).filter
      (fun t => t.content.truthy) = ms.map (fun r => (normalizeRef hooks cfg r).1) := by
    rw [List.filter_eq_self]
    intro t ht
    rw [List.mem_map] at ht
    obtain ⟨r, hr, rfl⟩ := ht
    exact htruthy r hr
  have hwalk1 : (replyWalk hooks cfg env fuel nodes m).1
      = (ms.map (fun r => (normalizeRef hooks cfg r).1)).reverse := by
    unfold replyWalk
    dsimp only
    rw [h1, hfilter]
  have hlenrev : (ms.map (fun r => (normalizeRef hooks cfg r).1)).reverse.length
      = ms.length := by
    rw [List.length_reverse, List.length_map]
  refine ⟨?_, hwalk1, ?_, ?_⟩
  · unfold replyWalk
    dsimp only
    exact h2
  · rw [hwalk1]
    unfold buildMessages appendCurrent
    cases ht : curTurn.content.truthy
    · simp only [Bool.false_eq_true, if_false]
      rw [List.take_succ_cons]
    · simp only [if_true]
      rw [List.take_succ_cons, List.take_append_eq_append_take]
      have hz : maxMsgs - (ms.map (fun r => (normalizeRef hooks cfg r).1)).reverse.length
          = 0 := by rw [hlenrev]; omega
      rw [hz]
      simp
  · rw [List.length_take, hlenrev]
    omega

/-- Configuration for the C1 concrete instances. -/
def c1cfg : NormCfg :=
  { acceptsImages := false, acceptsNames := false, maxText := 2000
    maxImages := 2, botId := 99 }

/-- Chain root (no reference). -/
def c1m1 : Msg := { id := 1, authorId := 7, content := "a".toList }

/-- Replies to `c1m1`. -/
def c1m2 : Msg := { id := 2, authorId := 7, content := "b".toList
                    reference := some 1 }

/-- Replies to `c1m2`. -/
def c1m3 : Msg := { id := 3, authorId := 7, content := "c".toList
                    reference := some 2 }

/-- The current message, replying to `c1m3`. -/
def c1cur : Msg := { id := 4, authorId := 7, content := "d".toList
                     reference := some 3 }

/-- The fetch environment for the C1 chain. -/
def c1env : Nat → Option Msg := fun i =>
  if i = 1 then some c1m1
  else if i = 2 then some c1m2
  else if i = 3 then some c1m3
  else none

/-- The system turn for the C1 instances. -/
def c1sys : TurnData :=
  { content := .str "sys".toList, role := "system".toList, name := none }

/-- The current message's turn for the C1 witness. -/
def c1curT : TurnData :=
  { content := .str "d".toList, role := "user".toList, name := none }

/-- The reply chain of the C1 instances. -/
theorem c1chain : ReplyChain c1env c1cur [c1m3, c1m2, c1m1] :=
  ReplyChain.cons c1cur 3 c1m3 [c1m2, c1m1] rfl rfl
    (ReplyChain.cons c1m3 2 c1m2 [c1m1] rfl rfl
      (ReplyChain.cons c1m2 1 c1m1 [] rfl rfl
        (ReplyChain.stop c1m1 rfl)))

/-- Witness for C1 at a concrete input: a chain of 3 non-empty turns
against `max_turns = 2`. -/
theorem claim_C1_witness :
    (replyWalk [] c1cfg c1env 5 [] c1cur).2.2 = [c1m3, c1m2, c1m1].length ∧
    (replyWalk [] c1cfg c1env 5 [] c1cur).1
      = ([c1m3, c1m2, c1m1].map (fun r => (normalizeRef [] c1cfg r).1)).reverse ∧
    buildMessages c1sys
        (appendCurrent (replyWalk [] c1cfg c1env 5 [] c1cur).1 c1curT) 2
      = c1sys
        :: (([c1m3, c1m2, c1m1].map
              (fun r => (normalizeRef [] c1cfg r).1)).reverse).take 2 ∧
    ((([c1m3, c1m2, c1m1].map
        (fun r => (normalizeRef [] c1cfg r).1)).reverse).take 2).length = 2 :=
  claim_C1 [] c1cfg c1env c1cur [c1m3, c1m2, c1m1] 5 2 [] c1sys c1curT
    c1chain (by decide) (by intro r _; rfl) (by decide) (by decide) (by decide)

/-- The three chain turns, as the code normalises them. -/
def c1ta : TurnData :=
  { content := .str "a".toList, role := "user".toList, name := none }

/-- Turn of `c1m2`. -/
def c1tb : TurnData :=
  { content := .str "b".toList, role := "user".toList, name := none }

/-- Turn of `c1m3`. -/
def c1tc : TurnData :=
  { content := .str "c".toList, role := "user".toList, name := none }

/-- Counterexample to C1 as stated: on a reply chain of length 3 with
`max_turns = 2`, the walk performs 3 fetches — it does **not** stop
after `max_turns` hops — and the final context keeps the two *oldest*
turns (`a`, `b`), not the two newest turns (`b`, `c`) that a
2-hop walk from the start message would produce; the current message's
own turn (`d`) is dropped as well. -/
theorem claim_C1_counterexample :
    (replyWalk [] c1cfg c1env 5 [] c1cur).2.2 = 3 ∧
    ¬ (replyWalk [] c1cfg c1env 5 [] c1cur).2.2 ≤ 2 ∧
    (contextMessages [] c1cfg c1sys c1env [] 5 2 false "d".toList [] c1cur).1
      = [c1sys, c1ta, c1tb] ∧
    (contextMessages [] c1cfg c1sys c1env [] 5 2 false "d".toList [] c1cur).1
      ≠ [c1sys, c1tb, c1tc] := by
  exact ⟨by decide, by decide, by decide, by decide⟩

end Claims

end Llmcord
